import Mathlib

/-!
Shallow embedding of the block/record storage engine of the sgbd-proyecto
repository (src/include/PhysicalAddress.h, src/include/Record.h,
src/include/Block.h).  C++ `std::string` is modelled as `List Char`,
machine integers (`int`) as `Int` and sizes (`size_t`) as `Nat`;
`sizeof(size_t) = 8` on the target platform.
-/

set_option maxRecDepth 10000

/-- C++ `std::string` content. -/
abbrev Str := List Char

/-- PhysicalAddress.h: 4-level coordinate (platter, surface, track, sector),
all `int` fields. -/
structure PhysicalAddress where
  platter : Int
  surface : Int
  track : Int
  sector : Int
deriving DecidableEq

/-- PhysicalAddress default constructor: all zero. -/
def PhysicalAddress.zero : PhysicalAddress := ⟨0, 0, 0, 0⟩

/-- PhysicalAddress::operator< — lexicographic on (platter, surface, track, sector). -/
def PhysicalAddress.lt (a b : PhysicalAddress) : Bool :=
  if a.platter ≠ b.platter then decide (a.platter < b.platter)
  else if a.surface ≠ b.surface then decide (a.surface < b.surface)
  else if a.track ≠ b.track then decide (a.track < b.track)
  else decide (a.sector < b.sector)

/-- Record.h: supported field types. -/
inductive FieldType where
  | INTEGER
  | FLOAT
  | STRING
  | DATE
deriving DecidableEq

/-- Record.h: FieldDefinition {name, type, max_length, is_nullable}. -/
structure FieldDefinition where
  name : Str
  type : FieldType
  max_length : Nat
  is_nullable : Bool
deriving DecidableEq

/-- Record.h: FixedRecord — base Record fields plus the computed `fixed_size`. -/
structure FixedRecord where
  record_id : Int
  physical_address : PhysicalAddress
  is_deleted : Bool
  field_values : List Str
  schema : List FieldDefinition
  fixed_size : Nat
deriving DecidableEq

/-- FixedRecord default construction `FixedRecord()` = FixedRecord(-1, 0). -/
def FixedRecord.new : FixedRecord :=
  { record_id := -1, physical_address := PhysicalAddress.zero, is_deleted := false,
    field_values := [], schema := [], fixed_size := 0 }

/-- Record.h: VariableRecord — base Record fields plus per-field offsets and `total_size`. -/
structure VariableRecord where
  record_id : Int
  physical_address : PhysicalAddress
  is_deleted : Bool
  field_values : List Str
  schema : List FieldDefinition
  field_offsets : List Nat
  total_size : Nat
deriving DecidableEq

/-- VariableRecord default construction `VariableRecord()` = VariableRecord(-1). -/
def VariableRecord.new : VariableRecord :=
  { record_id := -1, physical_address := PhysicalAddress.zero, is_deleted := false,
    field_values := [], schema := [], field_offsets := [], total_size := 0 }

/-- The polymorphic `std::shared_ptr<Record>` pointing at one of the two
concrete variants. -/
inductive Rec where
  | fixed (r : FixedRecord)
  | var (r : VariableRecord)
deriving DecidableEq

/-- Record::getId. -/
def Rec.getId : Rec → Int
  | .fixed r => r.record_id
  | .var r => r.record_id

/-- Record::setId. -/
def Rec.setId (id : Int) : Rec → Rec
  | .fixed r => .fixed { r with record_id := id }
  | .var r => .var { r with record_id := id }

/-- Record::isDeleted. -/
def Rec.isDeleted : Rec → Bool
  | .fixed r => r.is_deleted
  | .var r => r.is_deleted

/-- Record::markAsDeleted. -/
def Rec.markAsDeleted : Rec → Rec
  | .fixed r => .fixed { r with is_deleted := true }
  | .var r => .var { r with is_deleted := true }

/-- Record::setPhysicalAddress. -/
def Rec.setPhysicalAddress (a : PhysicalAddress) : Rec → Rec
  | .fixed r => .fixed { r with physical_address := a }
  | .var r => .var { r with physical_address := a }

/-- Record::getFieldValues. -/
def Rec.getFieldValues : Rec → List Str
  | .fixed r => r.field_values
  | .var r => r.field_values

/-- Virtual Record::getSize — FixedRecord returns `fixed_size`,
VariableRecord returns `total_size`. -/
def Rec.getSize : Rec → Nat
  | .fixed r => r.fixed_size
  | .var r => r.total_size

/-- Block.h: the Block state. -/
structure Block where
  address : PhysicalAddress
  block_size : Nat
  header_size : Nat
  records : List Rec
  offset_table : List Nat
  used_space : Nat
  next_record_id : Int
  relation_name : Str
  is_dirty : Bool
deriving DecidableEq

/-- Block constructor `Block(addr, size = 4096)`: fixed 64-byte header,
`used_space` starts at `header_size`, id counter at 1, clean, no records. -/
def Block.new (addr : PhysicalAddress) (size : Nat := 4096) : Block :=
  { address := addr, block_size := size, header_size := 64, records := [],
    offset_table := [], used_space := 64, next_record_id := 1,
    relation_name := [], is_dirty := false }

/-- `sizeof(size_t)` — the per-record offset-table entry size. -/
def offsetEntrySize : Nat := 8

/-- Block::canFit — `used_space + record_size + sizeof(size_t) <= block_size`. -/
def Block.canFit (b : Block) (record : Rec) : Bool :=
  decide (b.used_space + record.getSize + offsetEntrySize ≤ b.block_size)

/-- Block::addRecord. -/
def Block.addRecord (b : Block) (record : Rec) : Bool × Block :=
  if !b.canFit record then (false, b)
  else
    -- assign an id from the block counter if the record has none
    let assigned := record.getId = -1
    let record := if assigned then record.setId b.next_record_id else record
    let next_id := if assigned then b.next_record_id + 1 else b.next_record_id
    -- assign the block's physical address
    let record := record.setPhysicalAddress b.address
    -- append the pre-insert used_space to the offset table, then the record
    (true, { b with
      next_record_id := next_id,
      offset_table := b.offset_table ++ [b.used_space],
      records := b.records ++ [record],
      used_space := b.used_space + record.getSize + offsetEntrySize,
      is_dirty := true })

/-- The record-list traversal of Block::deleteRecord: mark the first record
whose id matches (the loop does not inspect the deleted flag). -/
def markFirstById (record_id : Int) : List Rec → Option (List Rec)
  | [] => none
  | r :: rs =>
    if r.getId = record_id then some (r.markAsDeleted :: rs)
    else (markFirstById record_id rs).map (r :: ·)

/-- Block::deleteRecord — linear scan, tombstone the first id match,
mark dirty and return true; false when no record has the id. -/
def Block.deleteRecord (b : Block) (record_id : Int) : Bool × Block :=
  match markFirstById record_id b.records with
  | some rs => (true, { b with records := rs, is_dirty := true })
  | none => (false, b)

/-- Block::recalculateOffsets — rebuild the offset table and `used_space`
from scratch over the current records. -/
def Block.recalculateOffsets (b : Block) : Block :=
  let acc := b.records.foldl
    (fun (acc : List Nat × Nat) r => (acc.1 ++ [acc.2], acc.2 + r.getSize + offsetEntrySize))
    ([], b.header_size)
  { b with offset_table := acc.1, used_space := acc.2 }

/-- Block::compactBlock — physically remove tombstoned records
(`remove_if`/`erase` keeps the surviving order), recompute offsets,
mark dirty. -/
def Block.compactBlock (b : Block) : Block :=
  let b := { b with records := b.records.filter (fun r => !r.isDeleted) }
  let b := b.recalculateOffsets
  { b with is_dirty := true }

/-- Block::findRecord — first non-deleted record with the id. -/
def Block.findRecord (b : Block) (record_id : Int) : Option Rec :=
  b.records.find? (fun r => decide (r.getId = record_id) && !r.isDeleted)

/-- Block::getActiveRecords. -/
def Block.getActiveRecords (b : Block) : List Rec :=
  b.records.filter (fun r => !r.isDeleted)

/-! Helper lemmas about `Rec` -/

theorem Rec.getSize_setId (id : Int) (r : Rec) : (r.setId id).getSize = r.getSize := by
  cases r <;> rfl

theorem Rec.getSize_setPhysicalAddress (a : PhysicalAddress) (r : Rec) :
    (r.setPhysicalAddress a).getSize = r.getSize := by
  cases r <;> rfl

/-- Sum of `record.size + offset_entry_size` over a record list. -/
def sumSizes (l : List Rec) : Nat :=
  (l.map (fun r => r.getSize + offsetEntrySize)).sum

theorem sumSizes_nil : sumSizes [] = 0 := rfl

theorem sumSizes_append (l₁ l₂ : List Rec) :
    sumSizes (l₁ ++ l₂) = sumSizes l₁ + sumSizes l₂ := by
  simp [sumSizes]

/-! C1 -/

/-- C1: Block::addRecord returns false and mutates nothing when
`used_space + record.size + offset_entry_size > capacity` (canFit false);
otherwise it assigns `next_local_id` (incrementing it) when the record id is
-1, stamps the block's address on the record, appends the record and the
pre-insert `used_space` to `records`/`offset_table`, grows `used_space` by
`record.size + offset_entry_size`, marks the block dirty and returns true. -/
theorem C1_addRecord_spec (b : Block) (record : Rec) :
    b.canFit record = decide (b.used_space + record.getSize + offsetEntrySize ≤ b.block_size) ∧
    b.addRecord record =
      (if b.used_space + record.getSize + offsetEntrySize ≤ b.block_size then
        (true, { b with
          next_record_id := if record.getId = -1 then b.next_record_id + 1 else b.next_record_id,
          records := b.records ++
            [(if record.getId = -1 then record.setId b.next_record_id else record).setPhysicalAddress b.address],
          offset_table := b.offset_table ++ [b.used_space],
          used_space := b.used_space + record.getSize + offsetEntrySize,
          is_dirty := true })
      else (false, b)) := by
  refine ⟨rfl, ?_⟩
  by_cases h : b.used_space + record.getSize + offsetEntrySize ≤ b.block_size
  · have hc : b.canFit record = true := by simp [Block.canFit, h]
    simp only [Block.addRecord, hc, Bool.not_true, if_pos h]
    by_cases hid : record.getId = -1 <;>
      simp [hid, Rec.getSize_setId, Rec.getSize_setPhysicalAddress]
  · have hc : b.canFit record = false := by simp [Block.canFit, h]
    simp [Block.addRecord, hc, h]

/-! C2 -/

/-- A sequence of Block::addRecord calls, `none` when some call reports failure. -/
def Block.addAll (b : Block) : List Rec → Option Block
  | [] => some b
  | r :: rs =>
    match b.addRecord r with
    | (true, b') => b'.addAll rs
    | (false, _) => none

theorem addRecord_true_used (b : Block) (r : Rec) (b' : Block)
    (h : b.addRecord r = (true, b')) :
    b'.used_space = b.used_space + r.getSize + offsetEntrySize ∧
    b'.records = b.records ++
      [(if r.getId = -1 then r.setId b.next_record_id else r).setPhysicalAddress b.address] ∧
    b'.header_size = b.header_size ∧ b'.block_size = b.block_size ∧
    b.used_space + r.getSize + offsetEntrySize ≤ b.block_size := by
  have hc := (C1_addRecord_spec b r).2
  by_cases hfit : b.used_space + r.getSize + offsetEntrySize ≤ b.block_size
  · rw [hc, if_pos hfit] at h
    obtain ⟨-, rfl⟩ := Prod.mk.injEq .. ▸ h
    exact ⟨rfl, by simp, rfl, rfl, hfit⟩
  · rw [hc, if_neg hfit] at h
    exact absurd (congrArg Prod.fst h) (by simp)

theorem addAll_invariant : ∀ (recs : List Rec) (b b' : Block),
    b.used_space = b.header_size + sumSizes b.records →
    b.addAll recs = some b' →
    b'.used_space = b'.header_size + sumSizes b'.records ∧
    (recs ≠ [] → b'.used_space ≤ b'.block_size) := by
  intro recs
  induction recs with
  | nil => intro b b' hinv h; cases h; exact ⟨hinv, fun hne => absurd rfl hne⟩
  | cons r rs ih =>
    intro b b' hinv h
    simp only [Block.addAll] at h
    rcases hadd : b.addRecord r with ⟨ok, b₁⟩
    rw [hadd] at h
    cases ok
    · simp at h
    · simp only at h
      obtain ⟨hused, hrecs, hhdr, hbs, hfit⟩ := addRecord_true_used b r b₁ hadd
      have hsz : (if r.getId = -1 then r.setId b.next_record_id else r).getSize = r.getSize := by
        by_cases hid : r.getId = -1 <;> simp [hid, Rec.getSize_setId]
      have hinv₁ : b₁.used_space = b₁.header_size + sumSizes b₁.records := by
        rw [hused, hrecs, hhdr, sumSizes_append, hinv]
        simp [sumSizes, Rec.getSize_setPhysicalAddress, hsz]
        ring
      have hle₁ : b₁.used_space ≤ b₁.block_size := by rw [hused, hbs]; exact hfit
      cases rs with
      | nil => cases h; exact ⟨hinv₁, fun _ => hle₁⟩
      | cons r' rs' =>
        obtain ⟨h1, h2⟩ := ih b₁ b' hinv₁ h
        exact ⟨h1, fun _ => h2 (by simp)⟩

/-- C2: along any sequence of addRecord calls on a freshly constructed block in
which every call succeeds, after each call `used_space` equals
`header_size + Σ (record.size + offset_entry_size)` over all records held, and
`used_space ≤ capacity`.  (Any state "after a call" is the final state of the
successful prefix ending at that call, so the final-state statement covers every
intermediate state.) -/
theorem C2_used_space_invariant (addr : PhysicalAddress) (size : Nat)
    (recs : List Rec) (b' : Block)
    (h : (Block.new addr size).addAll recs = some b') :
    b'.used_space = b'.header_size + sumSizes b'.records ∧
    (recs ≠ [] → b'.used_space ≤ b'.block_size) :=
  addAll_invariant recs (Block.new addr size) b' (by simp [Block.new, sumSizes]) h

/-- A concrete record used by witnesses: fixed, unassigned id, 20 bytes. -/
def wRec : Rec :=
  Rec.fixed { record_id := -1, physical_address := PhysicalAddress.zero,
              is_deleted := false, field_values := [['A', 'n', 'a']],
              schema := [], fixed_size := 20 }

/-- Witness for C2 at a concrete one-record sequence. -/
theorem C2_witness :
    ((Block.new PhysicalAddress.zero 128).addAll [wRec]).isSome = true ∧
    (((Block.new PhysicalAddress.zero 128).addAll [wRec]).getD (Block.new PhysicalAddress.zero 128)).used_space =
      (((Block.new PhysicalAddress.zero 128).addAll [wRec]).getD (Block.new PhysicalAddress.zero 128)).header_size +
        sumSizes ((((Block.new PhysicalAddress.zero 128)).addAll [wRec]).getD (Block.new PhysicalAddress.zero 128)).records ∧
    (((Block.new PhysicalAddress.zero 128).addAll [wRec]).getD (Block.new PhysicalAddress.zero 128)).used_space ≤
      (((Block.new PhysicalAddress.zero 128).addAll [wRec]).getD (Block.new PhysicalAddress.zero 128)).block_size := by
  have h : (Block.new PhysicalAddress.zero 128).addAll [wRec] =
      some (((Block.new PhysicalAddress.zero 128).addAll [wRec]).getD (Block.new PhysicalAddress.zero 128)) := by
    decide
  obtain ⟨h1, h2⟩ := C2_used_space_invariant PhysicalAddress.zero 128 [wRec] _ h
  exact ⟨by decide, h1, h2 (by simp)⟩

/-! C4 -/

/-- A block holding a single, already tombstoned record with id 1. -/
def c4Block : Block :=
  { Block.new PhysicalAddress.zero 4096 with
    records := [Rec.fixed { record_id := 1, physical_address := PhysicalAddress.zero,
                            is_deleted := true, field_values := [],
                            schema := [], fixed_size := 8 }] }

/-- C4 counterexample: in `c4Block` every record with id 1 is already deleted
(no live match exists), yet Block::deleteRecord returns true — the loop never
inspects the deleted flag, so the claim's "returns false when the only records
with that id are already deleted" is false on the code. -/
theorem C4_counterexample :
    c4Block.records.all (fun r => !(r.getId = 1 : Bool) || r.isDeleted) = true ∧
    (c4Block.deleteRecord 1).1 = true := by
  decide

/-- Spec-side description of the amended behaviour: mark the first record whose
id matches, whether or not it is already deleted. -/
def markFirstSpec (record_id : Int) : List Rec → List Rec
  | [] => []
  | r :: rs =>
    if r.getId = record_id then r.markAsDeleted :: rs
    else r :: markFirstSpec record_id rs

theorem markFirstSpec_no_match (record_id : Int) : ∀ l : List Rec,
    l.all (fun r => !(r.getId = record_id : Bool)) = true →
    markFirstSpec record_id l = l := by
  intro l
  induction l with
  | nil => intro _; rfl
  | cons r rs ih =>
    intro hall
    simp only [List.all_cons, Bool.and_eq_true] at hall
    simp [markFirstSpec, show ¬ (r.getId = record_id) by simpa using hall.1, ih hall.2]

theorem markFirstById_none (record_id : Int) : ∀ l : List Rec,
    markFirstById record_id l = none ↔ l.all (fun r => !(r.getId = record_id : Bool)) := by
  intro l
  induction l with
  | nil => simp [markFirstById]
  | cons r rs ih =>
    by_cases h : r.getId = record_id <;> simp [markFirstById, h, ih]

theorem markFirstById_some (record_id : Int) : ∀ (l l' : List Rec),
    markFirstById record_id l = some l' → l' = markFirstSpec record_id l := by
  intro l
  induction l with
  | nil => intro l' h; simp [markFirstById] at h
  | cons r rs ih =>
    intro l' h
    by_cases hid : r.getId = record_id
    · simp [markFirstById, hid] at h
      simp [markFirstSpec, hid, ← h]
    · simp [markFirstById, hid] at h
      obtain ⟨l'', h1, rfl⟩ := h
      simp [markFirstSpec, hid, ih l'' h1]

/-- C4 amended: Block::deleteRecord scans all records and marks the FIRST
record with the id as deleted — whether or not that record was already deleted
— marks the block dirty and returns true; it returns false exactly when no
record (live or deleted) has that id; `used_space` and `offset_table` are
unchanged in all cases. -/
theorem C4_deleteRecord_amended (b : Block) (record_id : Int) :
    b.deleteRecord record_id =
      (b.records.any (fun r => decide (r.getId = record_id)),
       { b with records := markFirstSpec record_id b.records,
                is_dirty := b.is_dirty || b.records.any (fun r => decide (r.getId = record_id)) }) ∧
    (b.deleteRecord record_id).2.used_space = b.used_space ∧
    (b.deleteRecord record_id).2.offset_table = b.offset_table := by
  have hmain : b.deleteRecord record_id =
      (b.records.any (fun r => decide (r.getId = record_id)),
       { b with records := markFirstSpec record_id b.records,
                is_dirty := b.is_dirty || b.records.any (fun r => decide (r.getId = record_id)) }) := by
    unfold Block.deleteRecord
    rcases hm : markFirstById record_id b.records with - | l'
    · have hall := (markFirstById_none record_id b.records).mp hm
      have hany : b.records.any (fun r => decide (r.getId = record_id)) = false := by
        rw [List.all_eq_true] at hall
        rw [List.any_eq_false]
        intro r hr
        simpa using hall r hr
      simp [hany, markFirstSpec_no_match record_id b.records hall]
    · have hne : ¬ b.records.all (fun r => !(r.getId = record_id : Bool)) = true := by
        intro hc
        rw [← markFirstById_none record_id b.records] at hc
        rw [hm] at hc; cases hc
      have hany : b.records.any (fun r => decide (r.getId = record_id)) = true := by
        rw [List.any_eq_true]
        by_contra hno
        push_neg at hno
        apply hne
        rw [List.all_eq_true]
        intro r hr
        have := hno r hr
        simpa using this
      simp [markFirstById_some record_id b.records l' hm, hany]
  exact ⟨hmain, by rw [hmain], by rw [hmain]⟩

/-! C5 -/

/-- Spec-side offset recomputation: starting the accumulator at `start`,
record the running value before each record and add `size + offset_entry_size`. -/
def offsetsSpec (start : Nat) : List Rec → List Nat
  | [] => []
  | r :: rs => start :: offsetsSpec (start + r.getSize + offsetEntrySize) rs

theorem recalc_fold (l : List Rec) : ∀ (pre : List Nat) (u : Nat),
    l.foldl (fun (acc : List Nat × Nat) r => (acc.1 ++ [acc.2], acc.2 + r.getSize + offsetEntrySize)) (pre, u) =
      (pre ++ offsetsSpec u l, u + sumSizes l) := by
  induction l with
  | nil => intro pre u; simp [offsetsSpec, sumSizes]
  | cons r rs ih =>
    intro pre u
    simp only [List.foldl_cons, ih, offsetsSpec, Prod.mk.injEq]
    refine ⟨by simp, ?_⟩
    simp only [sumSizes, List.map_cons, List.sum_cons]
    ring

theorem recalculateOffsets_spec (b : Block) :
    b.recalculateOffsets = { b with offset_table := offsetsSpec b.header_size b.records,
                                    used_space := b.header_size + sumSizes b.records } := by
  unfold Block.recalculateOffsets
  rw [recalc_fold]
  simp

theorem compactBlock_spec (b : Block) :
    b.compactBlock = { b with
      records := b.records.filter (fun r => !r.isDeleted),
      offset_table := offsetsSpec b.header_size (b.records.filter (fun r => !r.isDeleted)),
      used_space := b.header_size + sumSizes (b.records.filter (fun r => !r.isDeleted)),
      is_dirty := true } := by
  show ({ b with records := b.records.filter (fun r => !r.isDeleted) }.recalculateOffsets
      |> fun b => { b with is_dirty := true }) = _
  rw [recalculateOffsets_spec]

/-- The §8 scenario: insert one record (value "Ana", gets id 1), delete id 1,
compact. -/
def c5Scenario : Block :=
  ((((Block.new PhysicalAddress.zero 4096).addRecord
      (Rec.fixed { record_id := -1, physical_address := PhysicalAddress.zero,
                   is_deleted := false, field_values := [['A', 'n', 'a']],
                   schema := [], fixed_size := 16 })).2.deleteRecord 1).2).compactBlock

/-- C5: Block::compactBlock keeps exactly the non-deleted records in their
original relative order, recomputes `offset_table` and `used_space` from
scratch (accumulating from `header_size`), and always marks the block dirty;
in particular the insert/delete/compact scenario ends with zero records and
`used_space = header_size`. -/
theorem C5_compactBlock_spec (b : Block) :
    b.compactBlock.records = b.records.filter (fun r => !r.isDeleted) ∧
    b.compactBlock.offset_table =
      offsetsSpec b.header_size (b.records.filter (fun r => !r.isDeleted)) ∧
    b.compactBlock.used_space =
      b.header_size + sumSizes (b.records.filter (fun r => !r.isDeleted)) ∧
    b.compactBlock.is_dirty = true ∧
    (c5Scenario.records = [] ∧ c5Scenario.used_space = c5Scenario.header_size) := by
  rw [compactBlock_spec]
  exact ⟨rfl, rfl, rfl, rfl, by decide, by decide⟩

/-- C6: Block::compactBlock is idempotent — a second call yields the same
`records`, `offset_table` and `used_space` as the first. -/
theorem C6_compact_idempotent (b : Block) :
    b.compactBlock.compactBlock.records = b.compactBlock.records ∧
    b.compactBlock.compactBlock.offset_table = b.compactBlock.offset_table ∧
    b.compactBlock.compactBlock.used_space = b.compactBlock.used_space := by
  have hfilter : (b.records.filter (fun r => !r.isDeleted)).filter (fun r => !r.isDeleted) =
      b.records.filter (fun r => !r.isDeleted) := by
    rw [List.filter_filter]
    simp
  rw [compactBlock_spec, compactBlock_spec]
  simp [hfilter]

/-! C7 -/

/-- FixedRecord::calculateFixedSize — `sizeof(int) + sizeof(bool)` header
(4 + 1 bytes), per-field contributions from the schema, then the 4-byte
alignment `(fixed_size + 3) & ~3` computed on the 64-bit `size_t`
(`~3 = 2^64 - 4`). -/
def FixedRecord.calculateFixedSize (r : FixedRecord) : FixedRecord :=
  let fs : Nat := 4 + 1
  let fs := r.schema.foldl (fun fs field =>
    match field.type with
    | .INTEGER => fs + 4
    | .FLOAT => fs + 4
    | .STRING => fs + field.max_length
    | .DATE => fs + 12) fs
  { r with fixed_size := (fs + 3) &&& (2 ^ 64 - 4) }

/-- FixedRecord::getSize. -/
def FixedRecord.getSize (r : FixedRecord) : Nat := r.fixed_size

/-- Per-field byte contribution named by the spec: INTEGER/FLOAT 4 bytes,
STRING its declared max_length, DATE 12 bytes. -/
def fieldFixedContribution (f : FieldDefinition) : Nat :=
  match f.type with
  | .INTEGER => 4
  | .FLOAT => 4
  | .STRING => f.max_length
  | .DATE => 12

theorem fixedSize_foldl (l : List FieldDefinition) : ∀ acc : Nat,
    l.foldl (fun fs field =>
      match field.type with
      | .INTEGER => fs + 4
      | .FLOAT => fs + 4
      | .STRING => fs + field.max_length
      | .DATE => fs + 12) acc = acc + (l.map fieldFixedContribution).sum := by
  induction l with
  | nil => intro acc; simp
  | cons f fs ih =>
    intro acc
    have hstep : (match f.type with
        | FieldType.INTEGER => acc + 4
        | FieldType.FLOAT => acc + 4
        | FieldType.STRING => acc + f.max_length
        | FieldType.DATE => acc + 12) = acc + fieldFixedContribution f := by
      unfold fieldFixedContribution
      cases f.type <;> rfl
    simp only [List.foldl_cons, hstep, ih, List.map_cons, List.sum_cons]
    try ring

/-- Masking a 64-bit value with `~3 = 2^64 - 4` clears the two low bits,
i.e. rounds down to a multiple of 4. -/
theorem land_mask64 (y : Nat) (hy : y < 2 ^ 64) : y &&& (2 ^ 64 - 4) = y / 4 * 4 := by
  have h4 : (2 : Nat) ^ 64 - 4 = (2 ^ 62 - 1) <<< 2 := by
    rw [Nat.shiftLeft_eq]
    try norm_num
  have hdiv : y / 4 * 4 = (y >>> 2) <<< 2 := by
    rw [Nat.shiftRight_eq_div_pow, Nat.shiftLeft_eq]
    try norm_num
  apply Nat.eq_of_testBit_eq
  intro i
  rw [h4, hdiv]
  simp only [Nat.testBit_and, Nat.testBit_shiftLeft, Nat.testBit_shiftRight,
    Nat.testBit_two_pow_sub_one]
  by_cases h2 : 2 ≤ i
  · have hi : 2 + (i - 2) = i := by omega
    by_cases h64 : i < 64
    · simp [h2, show i - 2 < 62 by omega, hi]
    · have hfalse : y.testBit i = false :=
        Nat.testBit_lt_two_pow (lt_of_lt_of_le hy (Nat.pow_le_pow_right (by norm_num) (by omega)))
      simp [h2, show ¬ (i - 2 < 62) by omega, hi, hfalse]
  · simp [show ¬ 2 ≤ i by omega]

/-- C7: after calculateFixedSize the size equals the 5-byte header plus the
per-type schema contributions (STRING counts its declared max_length), rounded
up to the next multiple of 4; and the result depends only on the schema,
never on the actual field values. -/
theorem C7_calculateFixedSize (r : FixedRecord)
    (h : 5 + (r.schema.map fieldFixedContribution).sum + 3 < 2 ^ 64) :
    r.calculateFixedSize.fixed_size =
      (5 + (r.schema.map fieldFixedContribution).sum + 3) / 4 * 4 ∧
    ∀ r' : FixedRecord, r'.schema = r.schema →
      r'.calculateFixedSize.fixed_size = r.calculateFixedSize.fixed_size := by
  constructor
  · show ((r.schema.foldl _ (4 + 1)) + 3) &&& (2 ^ 64 - 4) = _
    rw [fixedSize_foldl, land_mask64 _ (by simpa using h)]
  · intro r' hs
    show ((r'.schema.foldl _ (4 + 1)) + 3) &&& (2 ^ 64 - 4) =
      ((r.schema.foldl _ (4 + 1)) + 3) &&& (2 ^ 64 - 4)
    rw [hs]

/-- A concrete schema for the C7 witness: one INTEGER, one STRING(10), one DATE;
5 + 4 + 10 + 12 = 31, rounded up to 32. -/
def c7Rec : FixedRecord :=
  { record_id := -1, physical_address := PhysicalAddress.zero, is_deleted := false,
    field_values := [],
    schema := [⟨['i', 'd'], .INTEGER, 0, false⟩,
               ⟨['n', 'm'], .STRING, 10, false⟩,
               ⟨['d', 't'], .DATE, 0, false⟩],
    fixed_size := 0 }

/-- Witness for C7 at the concrete schema. -/
theorem C7_witness :
    5 + (c7Rec.schema.map fieldFixedContribution).sum + 3 < 2 ^ 64 ∧
    c7Rec.calculateFixedSize.fixed_size =
      (5 + (c7Rec.schema.map fieldFixedContribution).sum + 3) / 4 * 4 :=
  ⟨by decide, (C7_calculateFixedSize c7Rec (by decide)).1⟩

/-! DiskManager model (src/include/Block.h, DiskManager section).  The
file-backed persistence collaborator (FileSystemSimulator) and the schema
metadata files are external to this spec's core; they are modelled as lookup
functions passed in as parameters.  The floating-point simulated access-time
statistic is outside the embedding. -/

/-- DiskConfig geometry (unnamed DiskConfig.h): `int` counters; bytes per
sector is used as the Block capacity. -/
structure DiskConfig where
  num_platters : Int
  surfaces_per_platter : Int
  tracks_per_surface : Int
  sectors_per_track : Int
  bytes_per_sector : Nat
deriving DecidableEq

/-- The default Megatron-747-style configuration. -/
def DiskConfig.default747 : DiskConfig :=
  { num_platters := 4, surfaces_per_platter := 2, tracks_per_surface := 65536,
    sectors_per_track := 256, bytes_per_sector := 4096 }

/-- The DiskManager state: block cache, per-relation block lists, allocation
cursor, record-id counter and read/write counters. -/
structure DiskManager where
  block_cache : List (PhysicalAddress × Block)
  relation_blocks : List (Str × List PhysicalAddress)
  next_free_address : PhysicalAddress
  next_record_id : Int
  total_reads : Nat
  total_writes : Nat
deriving DecidableEq

/-- DiskManager constructor. -/
def DiskManager.init : DiskManager :=
  { block_cache := [], relation_blocks := [], next_free_address := PhysicalAddress.zero,
    next_record_id := 1, total_reads := 0, total_writes := 0 }

/-- The cursor advancement of DiskManager::allocateNewBlock: sector + 1, with
carry into track, surface and platter; each lower level wraps at its
configured maximum, the platter level has no wrap. -/
def advanceAddress (config : DiskConfig) (a : PhysicalAddress) : PhysicalAddress :=
  let a := { a with sector := a.sector + 1 }
  if a.sector ≥ config.sectors_per_track then
    let a := { a with sector := 0, track := a.track + 1 }
    if a.track ≥ config.tracks_per_surface then
      let a := { a with track := 0, surface := a.surface + 1 }
      if a.surface ≥ config.surfaces_per_platter then
        { a with surface := 0, platter := a.platter + 1 }
      else a
    else a
  else a

/-- DiskManager::allocateNewBlock — returns the current cursor and advances it. -/
def DiskManager.allocateNewBlock (config : DiskConfig) (dm : DiskManager) :
    PhysicalAddress × DiskManager :=
  (dm.next_free_address,
   { dm with next_free_address := advanceAddress config dm.next_free_address })

/-- The cursor after `n` allocations from start address `a0`
(= the address returned by allocation number `n`, counting from 0). -/
def cursorAfter (config : DiskConfig) (a0 : PhysicalAddress) : Nat → PhysicalAddress
  | 0 => a0
  | n + 1 => advanceAddress config (cursorAfter config a0 n)

theorem lt_advanceAddress (config : DiskConfig) (a : PhysicalAddress) :
    a.lt (advanceAddress config a) = true := by
  obtain ⟨p, s, t, sec⟩ := a
  simp only [advanceAddress, PhysicalAddress.lt]
  split_ifs <;> simp_all <;> omega

theorem PhysicalAddress.lt_trans (a b c : PhysicalAddress)
    (h1 : a.lt b = true) (h2 : b.lt c = true) : a.lt c = true := by
  obtain ⟨p1, s1, t1, se1⟩ := a
  obtain ⟨p2, s2, t2, se2⟩ := b
  obtain ⟨p3, s3, t3, se3⟩ := c
  simp only [PhysicalAddress.lt] at h1 h2 ⊢
  split_ifs at h1 h2 ⊢ <;> simp_all <;> omega

theorem PhysicalAddress.lt_irrefl (a : PhysicalAddress) : a.lt a = false := by
  obtain ⟨p, s, t, sec⟩ := a
  simp [PhysicalAddress.lt]

theorem cursorAfter_strictMono (config : DiskConfig) (a0 : PhysicalAddress) :
    ∀ i j : Nat, i < j →
      (cursorAfter config a0 i).lt (cursorAfter config a0 j) = true := by
  intro i j hij
  induction j with
  | zero => omega
  | succ n ih =>
    rcases Nat.lt_succ_iff_lt_or_eq.mp hij with h | h
    · exact PhysicalAddress.lt_trans _ _ _ (ih h) (lt_advanceAddress config _)
    · subst h
      exact lt_advanceAddress config _

/-- `std::map::operator[]`-style insert-or-assign for the block cache. -/
def cacheInsert (addr : PhysicalAddress) (b : Block) :
    List (PhysicalAddress × Block) → List (PhysicalAddress × Block)
  | [] => [(addr, b)]
  | (a, x) :: rest =>
    if a = addr then (a, b) :: rest else (a, x) :: cacheInsert addr b rest

/-- Lookup in the block cache. -/
def cacheLookup (addr : PhysicalAddress) :
    List (PhysicalAddress × Block) → Option Block
  | [] => none
  | (a, x) :: rest => if a = addr then some x else cacheLookup addr rest

/-- `relation_blocks[name].push_back(addr)` — appends to the entry's vector,
default-constructing the entry if absent. -/
def relationBlocksAdd (name : Str) (addr : PhysicalAddress) :
    List (Str × List PhysicalAddress) → List (Str × List PhysicalAddress)
  | [] => [(name, [addr])]
  | (n, l) :: rest =>
    if n = name then (n, l ++ [addr]) :: rest
    else (n, l) :: relationBlocksAdd name addr rest

/-- Lookup in `relation_blocks`. -/
def relationBlocksFind (name : Str) :
    List (Str × List PhysicalAddress) → Option (List PhysicalAddress)
  | [] => none
  | (n, l) :: rest => if n = name then some l else relationBlocksFind name rest

/-- `*std::max_element(first, last)` over addresses: the first element that no
later element strictly exceeds. -/
def maxElemAddr (x : PhysicalAddress) (xs : List PhysicalAddress) : PhysicalAddress :=
  xs.foldl (fun m a => if m.lt a then a else m) x

/-- One iteration of the DiskManager::loadBlockIndex loop: read the block at
`addr` through the persistence collaborator, cache it, group it under its
stored relation name, and bump `next_record_id` past every record id seen. -/
def loadBlockIndexStep (fsRead : PhysicalAddress → Option Block)
    (dm : DiskManager) (addr : PhysicalAddress) : DiskManager :=
  match fsRead addr with
  | some block =>
    let dm := { dm with block_cache := cacheInsert addr block dm.block_cache }
    let dm := if block.relation_name ≠ [] then
        { dm with relation_blocks := relationBlocksAdd block.relation_name addr dm.relation_blocks }
      else dm
    block.records.foldl (fun dm record =>
      if record.getId ≥ dm.next_record_id then { dm with next_record_id := record.getId + 1 }
      else dm) dm
  | none => dm

/-- DiskManager::loadBlockIndex — rebuild cache/relations/id counter from the
occupied sectors, then resume the allocation cursor at the maximum occupied
address with its sector incremented (no wrap is applied here). -/
def DiskManager.loadBlockIndex (fsRead : PhysicalAddress → Option Block)
    (occupied : List PhysicalAddress) (dm : DiskManager) : DiskManager :=
  let dm := occupied.foldl (loadBlockIndexStep fsRead) dm
  match occupied with
  | [] => dm
  | x :: xs =>
    let last_addr := maxElemAddr x xs
    { dm with next_free_address := { last_addr with sector := last_addr.sector + 1 } }

theorem PhysicalAddress.lt_total (a b : PhysicalAddress) (h : a.lt b = false) :
    a = b ∨ b.lt a = true := by
  obtain ⟨p1, s1, t1, se1⟩ := a
  obtain ⟨p2, s2, t2, se2⟩ := b
  simp only [PhysicalAddress.lt, PhysicalAddress.mk.injEq] at h ⊢
  split_ifs at h ⊢ <;> simp_all <;> omega

theorem maxElemAddr_ge (xs : List PhysicalAddress) : ∀ (x : PhysicalAddress),
    ∀ a ∈ x :: xs, a = maxElemAddr x xs ∨ a.lt (maxElemAddr x xs) = true := by
  induction xs with
  | nil =>
    intro x a ha
    simp only [List.mem_singleton] at ha
    subst ha
    exact Or.inl rfl
  | cons y ys ih =>
    intro x a ha
    have hstep : maxElemAddr x (y :: ys) = maxElemAddr (if x.lt y then y else x) ys := rfl
    rw [hstep]
    rcases List.mem_cons.mp ha with rfl | ha'
    · by_cases hxy : a.lt y = true
      · rcases ih (if a.lt y then y else a) y (by simp [hxy]) with heq | hlt
        · right; rw [← heq]; exact hxy
        · right; exact PhysicalAddress.lt_trans _ _ _ hxy hlt
      · have hx : (if a.lt y then y else a) = a := by
          simp [hxy]
        rw [hx] at *
        exact ih a a (by simp)
    · rcases List.mem_cons.mp ha' with rfl | ha'' 
      · by_cases hxy : x.lt a = true
        · simpa [hxy] using ih a a (by simp)
        · rcases PhysicalAddress.lt_total x a (by simpa using hxy) with rfl | hax
          · simpa [PhysicalAddress.lt_irrefl] using ih x x (by simp)
          · have hx : (if x.lt a then a else x) = x := by simp [hxy]
            rw [hx]
            rcases ih x x (by simp) with heq | hlt
            · right; rw [← heq]; exact hax
            · right; exact PhysicalAddress.lt_trans _ _ _ hax hlt
      · exact ih (if x.lt y then y else x) a (by simp [ha''])

theorem lt_sector_succ (a : PhysicalAddress) :
    a.lt { a with sector := a.sector + 1 } = true := by
  obtain ⟨p, s, t, sec⟩ := a
  simp [PhysicalAddress.lt]

/-- C8: within one DiskManager lifetime, allocateNewBlock returns the current
cursor and then strictly advances it (sector → track → surface → platter with
carry, platter never wrapping), so the addresses returned by successive
allocations are strictly increasing in the lexicographic order and never
repeat; and loadBlockIndex (the reconciliation run by loadExistingDisk)
resumes the cursor strictly after every previously observed address. -/
theorem C8_allocation_cursor (config : DiskConfig) (dm : DiskManager)
    (a0 : PhysicalAddress) (fsRead : PhysicalAddress → Option Block)
    (occupied : List PhysicalAddress) :
    ((DiskManager.allocateNewBlock config dm).1 = dm.next_free_address ∧
     (DiskManager.allocateNewBlock config dm).2.next_free_address =
       advanceAddress config dm.next_free_address) ∧
    (∀ i j : Nat, i < j →
      (cursorAfter config a0 i).lt (cursorAfter config a0 j) = true) ∧
    (∀ i j : Nat, i < j → cursorAfter config a0 i ≠ cursorAfter config a0 j) ∧
    (occupied ≠ [] → ∀ a ∈ occupied,
      a.lt (DiskManager.loadBlockIndex fsRead occupied dm).next_free_address = true) := by
  refine ⟨⟨rfl, rfl⟩, cursorAfter_strictMono config a0, ?_, ?_⟩
  · intro i j hij heq
    have := cursorAfter_strictMono config a0 i j hij
    rw [heq, PhysicalAddress.lt_irrefl] at this
    cases this
  · intro hne a ha
    match occupied, hne with
    | x :: xs, _ =>
      have hcur : (DiskManager.loadBlockIndex fsRead (x :: xs) dm).next_free_address =
          { maxElemAddr x xs with sector := (maxElemAddr x xs).sector + 1 } := rfl
      rw [hcur]
      rcases maxElemAddr_ge xs x a ha with rfl | hlt
      · exact lt_sector_succ _
      · exact PhysicalAddress.lt_trans _ _ _ hlt (lt_sector_succ _)

/-- Witness for C8: two allocations from a fresh manager, and reconciliation
over two concrete occupied addresses. -/
theorem C8_witness :
    (cursorAfter DiskConfig.default747 PhysicalAddress.zero 0).lt
      (cursorAfter DiskConfig.default747 PhysicalAddress.zero 1) = true ∧
    cursorAfter DiskConfig.default747 PhysicalAddress.zero 0 ≠
      cursorAfter DiskConfig.default747 PhysicalAddress.zero 1 ∧
    PhysicalAddress.lt ⟨0, 0, 0, 5⟩
      (DiskManager.loadBlockIndex (fun _ => none) [⟨0, 0, 0, 5⟩, ⟨0, 0, 0, 2⟩]
        DiskManager.init).next_free_address = true :=
  ⟨(C8_allocation_cursor DiskConfig.default747 DiskManager.init PhysicalAddress.zero
      (fun _ => none) []).2.1 0 1 (by decide),
   (C8_allocation_cursor DiskConfig.default747 DiskManager.init PhysicalAddress.zero
      (fun _ => none) []).2.2.1 0 1 (by decide),
   (C8_allocation_cursor DiskConfig.default747 DiskManager.init PhysicalAddress.zero
      (fun _ => none) [⟨0, 0, 0, 5⟩, ⟨0, 0, 0, 2⟩]).2.2.2 (by simp)
      ⟨0, 0, 0, 5⟩ (by simp)⟩

/-- The per-field loop of VariableRecord::calculateOffsets: record the running
total as the field's offset, then add the field's encoded width (STRING: actual
value length + 1 terminator; INTEGER/FLOAT 4; DATE 12; fields beyond the
schema length add nothing). -/
def calcOffsetsLoop (schema : List FieldDefinition) :
    List Str → Nat → Nat → List Nat × Nat
  | [], _, total => ([], total)
  | v :: vs, i, total =>
    let total' :=
      match schema[i]? with
      | some f =>
        match f.type with
        | .INTEGER => total + 4
        | .FLOAT => total + 4
        | .STRING => total + v.length + 1
        | .DATE => total + 12
      | none => total
    let rest := calcOffsetsLoop schema vs (i + 1) total'
    (total :: rest.1, rest.2)

/-- VariableRecord::calculateOffsets — header `sizeof(int) + sizeof(bool) +
sizeof(size_t)` plus one 8-byte offset slot per schema field, then the
per-field loop. -/
def VariableRecord.calculateOffsets (r : VariableRecord) : VariableRecord :=
  let total : Nat := 4 + 1 + 8
  let total := total + r.schema.length * 8
  let res := calcOffsetsLoop r.schema r.field_values 0 total
  { r with field_offsets := res.1, total_size := res.2 }

/-- VariableRecord::getSize. -/
def VariableRecord.getSize (r : VariableRecord) : Nat := r.total_size

/-- DiskManager::loadTableSchema — reads the per-table metadata file; the
file-backed store is modelled as a lookup returning the schema and the
fixed/variable flag, absent files yield the empty schema. -/
def loadTableSchema (meta : Str → Option (List FieldDefinition × Bool))
    (table_name : Str) : List FieldDefinition :=
  match meta table_name with
  | some (schema, _) => schema
  | none => []

/-- DiskManager::isTableFixedRecord — same metadata store; defaults to fixed
records when the file is missing. -/
def isTableFixedRecord (meta : Str → Option (List FieldDefinition × Bool))
    (table_name : Str) : Bool :=
  match meta table_name with
  | some (_, use_fixed) => use_fixed
  | none => true

/-- Block::getFreeSpace — `block_size - used_space` in `size_t` arithmetic. -/
def Block.getFreeSpace (b : Block) : Nat :=
  (((b.block_size : Int) - (b.used_space : Int)) % (2 : Int) ^ 64).toNat

/-- DiskManager::getBlock — cache hit, or a read through the persistence
collaborator (modelled as a lookup returning the decoded block) that
populates the cache. -/
def DiskManager.getBlock (fsRead : PhysicalAddress → Option Block)
    (dm : DiskManager) (addr : PhysicalAddress) : Option Block × DiskManager :=
  match cacheLookup addr dm.block_cache with
  | some b => (some b, dm)
  | none =>
    match fsRead addr with
    | some b => (some b, { dm with block_cache := cacheInsert addr b dm.block_cache })
    | none => (none, dm)

/-- The loop of DiskManager::findBlockWithSpace over the relation's block
addresses. -/
def findBlockGo (fsRead : PhysicalAddress → Option Block) (record_size : Nat) :
    List PhysicalAddress → DiskManager → Option Block × DiskManager
  | [], dm => (none, dm)
  | addr :: rest, dm =>
    match DiskManager.getBlock fsRead dm addr with
    | (some block, dm) =>
      if block.getFreeSpace ≥ record_size + offsetEntrySize then (some block, dm)
      else findBlockGo fsRead record_size rest dm
    | (none, dm) => findBlockGo fsRead record_size rest dm

/-- DiskManager::findBlockWithSpace — first-fit over the table's blocks in
registration order. -/
def DiskManager.findBlockWithSpace (fsRead : PhysicalAddress → Option Block)
    (dm : DiskManager) (table_name : Str) (record_size : Nat) :
    Option Block × DiskManager :=
  match relationBlocksFind table_name dm.relation_blocks with
  | none => (none, dm)
  | some addrs => findBlockGo fsRead record_size addrs dm

/-- DiskManager::insertRecord.  The id counter is consumed when the record is
constructed; a new block is allocated, cached and registered when no existing
block fits; Block::addRecord decides success.  The cached block is a shared
pointer mutated in place by addRecord — the write-back to the cache models
that aliasing.  `filesystem.writeBlock` and the simulated access time are
external collaborator effects (the latter a random float, outside this
embedding); `total_writes` is the manager statistic bumped on success. -/
def DiskManager.insertRecord (config : DiskConfig)
    (meta : Str → Option (List FieldDefinition × Bool))
    (fsRead : PhysicalAddress → Option Block)
    (dm : DiskManager) (table_name : Str) (values : List Str) :
    Bool × DiskManager :=
  let schema := loadTableSchema meta table_name
  if schema.isEmpty then (false, dm)
  else
    let use_fixed := isTableFixedRecord meta table_name
    let id := dm.next_record_id
    let dm := { dm with next_record_id := dm.next_record_id + 1 }
    let record : Rec :=
      if use_fixed then
        Rec.fixed (FixedRecord.calculateFixedSize
          { record_id := id, physical_address := PhysicalAddress.zero,
            is_deleted := false, field_values := values, schema := schema,
            fixed_size := 0 })
      else
        Rec.var (VariableRecord.calculateOffsets
          { record_id := id, physical_address := PhysicalAddress.zero,
            is_deleted := false, field_values := values, schema := schema,
            field_offsets := [], total_size := 0 })
    let found := dm.findBlockWithSpace fsRead table_name record.getSize
    let dm := found.2
    let blockdm : Block × DiskManager :=
      match found.1 with
      | some b => (b, dm)
      | none =>
        let alloc := DiskManager.allocateNewBlock config dm
        let b := { Block.new alloc.1 config.bytes_per_sector with relation_name := table_name }
        (b, { alloc.2 with
          block_cache := cacheInsert alloc.1 b alloc.2.block_cache,
          relation_blocks := relationBlocksAdd table_name alloc.1 alloc.2.relation_blocks })
    let block := blockdm.1
    let dm := blockdm.2
    match block.addRecord record with
    | (true, block') =>
      (true, { dm with
        total_writes := dm.total_writes + 1,
        block_cache := cacheInsert block'.address block' dm.block_cache })
    | (false, _) => (false, dm)

/-! C10 -/

/-- Schema for the C10 scenario: one STRING field of declared length 5000 —
a fixed record over it (size 5008 after alignment) cannot fit in any fresh
4096-byte block. -/
def c10Schema : List FieldDefinition :=
  [⟨['d', 'a', 't', 'a'], .STRING, 5000, false⟩]

/-- Metadata store holding exactly the table "T" with fixed records. -/
def c10Meta : Str → Option (List FieldDefinition × Bool) :=
  fun t => if t = ['T'] then some (c10Schema, true) else none

/-- Manager state right after `createTable("T", c10Schema, true)`: one empty
block at (0,0,0,0) cached and registered under "T", cursor advanced to
(0,0,0,1), id counter still 1. -/
def c10Dm : DiskManager :=
  { block_cache := [(PhysicalAddress.zero,
      { Block.new PhysicalAddress.zero 4096 with relation_name := ['T'] })],
    relation_blocks := [(['T'], [PhysicalAddress.zero])],
    next_free_address := ⟨0, 0, 0, 1⟩,
    next_record_id := 1, total_reads := 0, total_writes := 0 }

/-- The insert attempt of the C10 scenario. -/
def c10Result : Bool × DiskManager :=
  DiskManager.insertRecord DiskConfig.default747 c10Meta (fun _ => none)
    c10Dm ['T'] [['x']]

/-- C10: insertRecord returns false for the oversized record, yet the manager
state has already changed: `next_record_id` was consumed by the record
constructor, and a fresh empty block was allocated at the cursor, registered
under the table and inserted into the block cache before the failing
addRecord — failure is not atomic with respect to manager state. -/
theorem C10_insertRecord_not_atomic :
    c10Result.1 = false ∧
    c10Result.2.next_record_id = 2 ∧
    relationBlocksFind ['T'] c10Result.2.relation_blocks =
      some [PhysicalAddress.zero, ⟨0, 0, 0, 1⟩] ∧
    (cacheLookup ⟨0, 0, 0, 1⟩ c10Result.2.block_cache).isSome = true ∧
    c10Result.2.next_free_address = ⟨0, 0, 0, 2⟩ ∧
    c10Result.2 ≠ c10Dm := by
  decide

/-! Serialization (Block::serialize/deserialize, Record::serialize/deserialize).
`std::istringstream` + `std::getline` are modelled over `List Char`: a getline
fails exactly when the stream is exhausted, otherwise it consumes up to and
including the first delimiter (or the rest of the stream). -/

/-- Read up to the first occurrence of the delimiter; the delimiter is
consumed but not returned. -/
def readUntil (d : Char) : List Char → Str × List Char
  | [] => ([], [])
  | c :: cs =>
    if c = d then ([], cs)
    else
      let r := readUntil d cs
      (c :: r.1, r.2)

/-- `std::getline(stream, tok, d)` — fails (none) iff the stream is empty. -/
def getline (d : Char) (s : List Char) : Option (Str × List Char) :=
  match s with
  | [] => none
  | _ => some (readUntil d s)

/-- An unchecked `std::getline` whose target string was default-initialized
empty: on failure the string stays `""` and the stream is unchanged. -/
def getlineOr (d : Char) (s : List Char) : Str × List Char :=
  match s with
  | [] => ([], [])
  | _ => readUntil d s

/-- The token accumulator of a `while (std::getline(stream, tok, d))` loop. -/
def getlineLoopGo (d : Char) (acc : List Char) : List Char → List Str
  | [] => [acc.reverse]
  | c :: cs =>
    if c = d then
      match cs with
      | [] => [acc.reverse]
      | _ => acc.reverse :: getlineLoopGo d [] cs
    else getlineLoopGo d (c :: acc) cs

/-- `while (std::getline(stream, tok, d)) push_back(tok)` — the final getline
fails on the exhausted stream, so a trailing delimiter yields no empty token. -/
def getlineLoop (d : Char) (s : List Char) : List Str :=
  match s with
  | [] => []
  | _ => getlineLoopGo d [] s

/-- Decimal digit character. -/
def digitChar10 (n : Nat) : Char :=
  if n = 0 then '0' else if n = 1 then '1' else if n = 2 then '2'
  else if n = 3 then '3' else if n = 4 then '4' else if n = 5 then '5'
  else if n = 6 then '6' else if n = 7 then '7' else if n = 8 then '8' else '9'

/-- Fuel-driven decimal rendering (most significant digit first). -/
def natReprAux : Nat → Nat → Str
  | 0, _ => []
  | fuel + 1, n =>
    if n < 10 then [digitChar10 n]
    else natReprAux fuel (n / 10) ++ [digitChar10 (n % 10)]

/-- `operator<<` on an unsigned value: decimal digits. -/
def natRepr (n : Nat) : Str := natReprAux (n + 1) n

/-- `operator<<` on an `int`: optional minus sign, then decimal digits. -/
def intRepr (i : Int) : Str :=
  if i < 0 then '-' :: natRepr (-i).toNat else natRepr i.toNat

/-- PhysicalAddress::toString — `P{p}_S{s}_T{t}_SEC{sec}`. -/
def PhysicalAddress.toStr (a : PhysicalAddress) : Str :=
  ['P'] ++ intRepr a.platter ++ ['_', 'S'] ++ intRepr a.surface ++
  ['_', 'T'] ++ intRepr a.track ++ ['_', 'S', 'E', 'C'] ++ intRepr a.sector

/-- The comma-join loop (`if (i > 0) oss << ","; oss << item`). -/
def joinComma : List Str → Str
  | [] => []
  | [v] => v
  | v :: vs => v ++ ',' :: joinComma vs

/-- The whitespace class skipped by `std::stoi`/`std::stoull`. -/
def isSpaceCpp (c : Char) : Bool :=
  c = ' ' || c = '\t' || c = '\n' || c = '\x0b' || c = '\x0c' || c = '\r'

/-- Value of a most-significant-first digit string. -/
def digitsVal (l : Str) : Nat :=
  l.foldl (fun a c => a * 10 + (c.toNat - 48)) 0

/-- `std::stoull`: skip whitespace, optional sign, at least one digit
(otherwise `invalid_argument`, modelled as none), trailing characters ignored;
values beyond ULLONG_MAX raise `out_of_range`; a minus sign negates in
unsigned (mod 2^64) arithmetic. -/
def stoullModel (s : Str) : Option Nat :=
  let s1 := s.dropWhile isSpaceCpp
  let neg : Bool := s1.head? == some '-'
  let s2 := if s1.head? == some '-' then s1.tail
            else if s1.head? == some '+' then s1.tail else s1
  let ds := s2.takeWhile Char.isDigit
  if ds.isEmpty then none
  else
    let v := digitsVal ds
    if 2 ^ 64 ≤ v then none
    else some (if neg then (2 ^ 64 - v) % 2 ^ 64 else v)

/-- `std::stoi`: as stoull but signed, failing outside the `int` range. -/
def stoiModel (s : Str) : Option Int :=
  let s1 := s.dropWhile isSpaceCpp
  let neg : Bool := s1.head? == some '-'
  let s2 := if s1.head? == some '-' then s1.tail
            else if s1.head? == some '+' then s1.tail else s1
  let ds := s2.takeWhile Char.isDigit
  if ds.isEmpty then none
  else
    let v := digitsVal ds
    if neg then (if 2 ^ 31 < v then none else some (-(v : Int)))
    else (if 2 ^ 31 ≤ v then none else some (v : Int))

/-- FixedRecord::serialize — `FIXED|id|deleted|address|v1,v2,...`. -/
def FixedRecord.serialize (r : FixedRecord) : Str :=
  "FIXED|".toList ++ intRepr r.record_id ++ ['|'] ++
  (if r.is_deleted then ['1'] else ['0']) ++ ['|'] ++
  r.physical_address.toStr ++ ['|'] ++ joinComma r.field_values

/-- VariableRecord::serialize —
`VARIABLE|id|deleted|address|total_size|o1,o2,...|v1,v2,...`. -/
def VariableRecord.serialize (r : VariableRecord) : Str :=
  "VARIABLE|".toList ++ intRepr r.record_id ++ ['|'] ++
  (if r.is_deleted then ['1'] else ['0']) ++ ['|'] ++
  r.physical_address.toStr ++ ['|'] ++ natRepr r.total_size ++ ['|'] ++
  joinComma (r.field_offsets.map natRepr) ++ ['|'] ++ joinComma r.field_values

/-- Virtual Record::serialize. -/
def Rec.serialize : Rec → Str
  | .fixed r => r.serialize
  | .var r => r.serialize

/-- FixedRecord::deserialize, mutating receiver `r`; `some (false, r)` is the
early `return false` on a failed getline or wrong discriminator, `none` is a
thrown `std::stoi` exception.  The address token is read but never stored, and
neither `fixed_size` nor `schema` is touched. -/
def FixedRecord.deserialize (data : Str) (r : FixedRecord) :
    Option (Bool × FixedRecord) :=
  match getline '|' data with
  | none => some (false, r)
  | some (ty, s1) =>
    if ty = "FIXED".toList then
      match getline '|' s1 with
      | none => some (false, r)
      | some (id_str, s2) =>
        match getline '|' s2 with
        | none => some (false, r)
        | some (deleted_str, s3) =>
          match getline '|' s3 with
          | none => some (false, r)
          | some (_addr_str, s4) =>
            match getline '\n' s4 with
            | none => some (false, r)
            | some (fields_str, _) =>
              match stoiModel id_str with
              | none => none
              | some id =>
                some (true, { r with
                  record_id := id,
                  is_deleted := deleted_str == ['1'],
                  field_values := getlineLoop ',' fields_str })
    else some (false, r)

/-- VariableRecord::deserialize; `none` models a thrown stoi/stoull exception.
The address token is read but never stored. -/
def VariableRecord.deserialize (data : Str) (r : VariableRecord) :
    Option (Bool × VariableRecord) :=
  match getline '|' data with
  | none => some (false, r)
  | some (ty, s1) =>
    if ty = "VARIABLE".toList then
      match getline '|' s1 with
      | none => some (false, r)
      | some (id_str, s2) =>
        match getline '|' s2 with
        | none => some (false, r)
        | some (deleted_str, s3) =>
          match getline '|' s3 with
          | none => some (false, r)
          | some (_addr_str, s4) =>
            match getline '|' s4 with
            | none => some (false, r)
            | some (size_str, s5) =>
              match getline '|' s5 with
              | none => some (false, r)
              | some (offsets_str, s6) =>
                match getline '\n' s6 with
                | none => some (false, r)
                | some (fields_str, _) =>
                  match stoiModel id_str with
                  | none => none
                  | some id =>
                    match stoullModel size_str with
                    | none => none
                    | some sz =>
                      match (getlineLoop ',' offsets_str).mapM stoullModel with
                      | none => none
                      | some offs =>
                        some (true, { r with
                          record_id := id,
                          is_deleted := deleted_str == ['1'],
                          total_size := sz,
                          field_offsets := offs,
                          field_values := getlineLoop ',' fields_str })
    else some (false, r)

/-- Block::serialize — a BLOCK_HEADER line, an OFFSET_TABLE line, then one
RECORD line per stored record (`std::endl` after each line). -/
def Block.serialize (b : Block) : Str :=
  "BLOCK_HEADER|".toList ++ b.address.toStr ++ ['|'] ++ natRepr b.block_size ++
    ['|'] ++ natRepr b.used_space ++ ['|'] ++ b.relation_name ++ ['|'] ++
    natRepr b.records.length ++ ['\n'] ++
  "OFFSET_TABLE|".toList ++ joinComma (b.offset_table.map natRepr) ++ ['\n'] ++
  (b.records.map (fun r => "RECORD|".toList ++ r.serialize ++ ['\n'])).flatten

/-- One iteration of the Block::deserialize line loop.  Empty lines are
skipped; a BLOCK_HEADER line restores `block_size`, `used_space` and
`relation_name` (the address and count tokens are read but unused); an
OFFSET_TABLE line appends the parsed offsets; a RECORD line dispatches on the
discriminator and appends the record when the variant deserialize returns
true.  `none` models a thrown stoull/stoi exception. -/
def Block.processLine (b : Block) (line : Str) : Option Block :=
  if line.isEmpty then some b
  else
    let tyrest := getlineOr '|' line
    if tyrest.1 = "BLOCK_HEADER".toList then
      let p1 := getlineOr '|' tyrest.2
      let p2 := getlineOr '|' p1.2
      let p3 := getlineOr '|' p2.2
      let p4 := getlineOr '|' p3.2
      match stoullModel p2.1 with
      | none => none
      | some sz =>
        match stoullModel p3.1 with
        | none => none
        | some us =>
          some { b with block_size := sz, used_space := us, relation_name := p4.1 }
    else if tyrest.1 = "OFFSET_TABLE".toList then
      let offsets_str := (getlineOr '\n' tyrest.2).1
      match (getlineLoop ',' offsets_str).mapM stoullModel with
      | none => none
      | some offs => some { b with offset_table := b.offset_table ++ offs }
    else if tyrest.1 = "RECORD".toList then
      let record_data := (getlineOr '\n' tyrest.2).1
      if record_data.take 6 = "FIXED|".toList then
        match FixedRecord.deserialize record_data FixedRecord.new with
        | none => none
        | some (true, r) => some { b with records := b.records ++ [Rec.fixed r] }
        | some (false, _) => some b
      else if record_data.take 9 = "VARIABLE|".toList then
        match VariableRecord.deserialize record_data VariableRecord.new with
        | none => none
        | some (true, r) => some { b with records := b.records ++ [Rec.var r] }
        | some (false, _) => some b
      else some b
    else some b

/-- Block::deserialize — clear `records` and `offset_table`, then process the
input line by line; always returns true in the source, `none` here models a
thrown number-parse exception. -/
def Block.deserialize (data : Str) (b : Block) : Option Block :=
  (getlineLoop '\n' data).foldlM Block.processLine
    { b with records := [], offset_table := [] }

/-! Stream lemmas -/

theorem readUntil_no_delim (d : Char) : ∀ s : List Char, d ∉ s →
    readUntil d s = (s, []) := by
  intro s
  induction s with
  | nil => intro _; rfl
  | cons c cs ih =>
    intro h
    have hc : ¬ c = d := fun hc => h (hc ▸ List.mem_cons_self c cs)
    simp only [readUntil, if_neg hc, ih (fun hm => h (List.mem_cons_of_mem c hm))]

theorem readUntil_append (d : Char) : ∀ (x r : List Char), d ∉ x →
    readUntil d (x ++ d :: r) = (x, r) := by
  intro x
  induction x with
  | nil => intro r _; simp [readUntil]
  | cons c cs ih =>
    intro r h
    have hc : ¬ c = d := fun hc => h (hc ▸ List.mem_cons_self c cs)
    simp only [List.cons_append, readUntil, List.append_eq, if_neg hc,
      ih r (fun hm => h (List.mem_cons_of_mem c hm))]

theorem getline_of_ne_nil (d : Char) (s : List Char) (h : s ≠ []) :
    getline d s = some (readUntil d s) := by
  cases s with
  | nil => exact absurd rfl h
  | cons c cs => rfl

theorem getlineOr_of_ne_nil (d : Char) (s : List Char) (h : s ≠ []) :
    getlineOr d s = readUntil d s := by
  cases s with
  | nil => exact absurd rfl h
  | cons c cs => rfl

theorem getline_append (d : Char) (x r : List Char) (h : d ∉ x) :
    getline d (x ++ d :: r) = some (x, r) := by
  rw [getline_of_ne_nil d _ (by cases x <;> simp), readUntil_append d x r h]

theorem getlineOr_append (d : Char) (x r : List Char) (h : d ∉ x) :
    getlineOr d (x ++ d :: r) = (x, r) := by
  rw [getlineOr_of_ne_nil d _ (by cases x <;> simp), readUntil_append d x r h]

theorem getline_no_delim (d : Char) (s : List Char) (hne : s ≠ []) (h : d ∉ s) :
    getline d s = some (s, []) := by
  rw [getline_of_ne_nil d s hne, readUntil_no_delim d s h]

theorem getlineOr_no_delim (d : Char) (s : List Char) (hne : s ≠ []) (h : d ∉ s) :
    getlineOr d s = (s, []) := by
  rw [getlineOr_of_ne_nil d s hne, readUntil_no_delim d s h]

theorem getlineLoopGo_append (d : Char) : ∀ (x : List Char) (acc r : List Char),
    d ∉ x → r ≠ [] →
    getlineLoopGo d acc (x ++ d :: r) = (acc.reverse ++ x) :: getlineLoopGo d [] r := by
  intro x
  induction x with
  | nil =>
    intro acc r _ hr
    cases r with
    | nil => exact absurd rfl hr
    | cons c cs => simp [getlineLoopGo]
  | cons c cs ih =>
    intro acc r h hr
    have hc : ¬ c = d := fun hc => h (hc ▸ List.mem_cons_self c cs)
    simp only [List.cons_append, getlineLoopGo, List.append_eq, if_neg hc,
      ih (c :: acc) r (fun hm => h (List.mem_cons_of_mem c hm)) hr,
      List.reverse_cons, List.append_assoc, List.singleton_append, List.nil_append]

theorem getlineLoopGo_no_delim (d : Char) : ∀ (x acc : List Char), d ∉ x →
    getlineLoopGo d acc x = [acc.reverse ++ x] := by
  intro x
  induction x with
  | nil => intro acc _; simp [getlineLoopGo]
  | cons c cs ih =>
    intro acc h
    have hc : ¬ c = d := fun hc => h (hc ▸ List.mem_cons_self c cs)
    simp only [getlineLoopGo, if_neg hc,
      ih (c :: acc) (fun hm => h (List.mem_cons_of_mem c hm)),
      List.reverse_cons, List.append_assoc, List.singleton_append, List.nil_append]

theorem getlineLoopGo_final_delim (d : Char) : ∀ (x acc : List Char), d ∉ x →
    getlineLoopGo d acc (x ++ [d]) = [acc.reverse ++ x] := by
  intro x
  induction x with
  | nil => intro acc _; simp [getlineLoopGo]
  | cons c cs ih =>
    intro acc h
    have hc : ¬ c = d := fun hc => h (hc ▸ List.mem_cons_self c cs)
    simp only [List.cons_append, getlineLoopGo, List.append_eq, if_neg hc,
      ih (c :: acc) (fun hm => h (List.mem_cons_of_mem c hm)),
      List.reverse_cons, List.append_assoc, List.singleton_append, List.nil_append]

theorem getlineLoop_of_ne_nil (d : Char) (s : List Char) (h : s ≠ []) :
    getlineLoop d s = getlineLoopGo d [] s := by
  cases s with
  | nil => exact absurd rfl h
  | cons c cs => rfl

theorem getlineLoop_append (d : Char) (x r : List Char) (h : d ∉ x) (hr : r ≠ []) :
    getlineLoop d (x ++ d :: r) = x :: getlineLoop d r := by
  rw [getlineLoop_of_ne_nil d _ (by cases x <;> simp),
    getlineLoopGo_append d x [] r h hr, getlineLoop_of_ne_nil d r hr]
  simp

theorem getlineLoop_no_delim (d : Char) (s : List Char) (hne : s ≠ []) (h : d ∉ s) :
    getlineLoop d s = [s] := by
  rw [getlineLoop_of_ne_nil d s hne, getlineLoopGo_no_delim d s [] h]
  simp

theorem getlineLoop_final_delim (d : Char) (x : List Char) (h : d ∉ x) :
    getlineLoop d (x ++ [d]) = [x] := by
  rw [getlineLoop_of_ne_nil d _ (by cases x <;> simp),
    getlineLoopGo_final_delim d x [] h]
  simp

/-! joinComma lemmas -/

theorem joinComma_ne_nil : ∀ vs : List Str, vs ≠ [] → vs.getLast? ≠ some [] →
    joinComma vs ≠ [] := by
  intro vs
  match vs with
  | [] => intro h _; exact absurd rfl h
  | [v] =>
    intro _ hlast
    simp only [List.getLast?_singleton] at hlast
    simpa [joinComma] using fun hv => hlast (by rw [hv])
  | v :: w :: ws =>
    intro _ _
    show v ++ ',' :: joinComma (w :: ws) ≠ []
    cases v <;> simp

theorem mem_joinComma : ∀ (vs : List Str) (c : Char), c ∈ joinComma vs →
    c = ',' ∨ ∃ v ∈ vs, c ∈ v := by
  intro vs
  match vs with
  | [] => intro c hc; cases hc
  | [v] => intro c hc; exact Or.inr ⟨v, by simp, hc⟩
  | v :: w :: ws =>
    intro c hc
    rcases List.mem_append.mp hc with hv | hrest
    · exact Or.inr ⟨v, by simp, hv⟩
    · rcases List.mem_cons.mp hrest with rfl | hjoin
      · exact Or.inl rfl
      · rcases mem_joinComma (w :: ws) c hjoin with h | ⟨u, hu, hcu⟩
        · exact Or.inl h
        · exact Or.inr ⟨u, List.mem_cons_of_mem v hu, hcu⟩

theorem getLast?_cons_cons {α : Type} (a b : α) (l : List α) :
    (a :: b :: l).getLast? = (b :: l).getLast? := by
  simp [List.getLast?_cons_cons]

theorem getlineLoop_joinComma : ∀ vs : List Str,
    (∀ v ∈ vs, ',' ∉ v) → vs ≠ [] → vs.getLast? ≠ some [] →
    getlineLoop ',' (joinComma vs) = vs := by
  intro vs
  match vs with
  | [] => intro _ h _; exact absurd rfl h
  | [v] =>
    intro hnc _ hlast
    have hv : v ≠ [] := by
      simp only [List.getLast?_singleton] at hlast
      exact fun hv => hlast (by rw [hv])
    show getlineLoop ',' v = [v]
    exact getlineLoop_no_delim ',' v hv (hnc v (by simp))
  | v :: w :: ws =>
    intro hnc _ hlast
    have hrest : joinComma (w :: ws) ≠ [] :=
      joinComma_ne_nil (w :: ws) (by simp) (by rwa [getLast?_cons_cons] at hlast)
    show getlineLoop ',' (v ++ ',' :: joinComma (w :: ws)) = v :: w :: ws
    rw [getlineLoop_append ',' v _ (hnc v (by simp)) hrest,
      getlineLoop_joinComma (w :: ws) (fun u hu => hnc u (List.mem_cons_of_mem v hu))
        (by simp) (by rwa [getLast?_cons_cons] at hlast)]

/-! Decimal rendering and parsing lemmas -/

theorem digitChar10_isDigit (n : Nat) : (digitChar10 n).isDigit = true := by
  unfold digitChar10
  split_ifs <;> decide

theorem mem_natReprAux_isDigit : ∀ (fuel n : Nat) (c : Char),
    c ∈ natReprAux fuel n → c.isDigit = true := by
  intro fuel
  induction fuel with
  | zero => intro n c hc; cases hc
  | succ f ih =>
    intro n c hc
    by_cases h : n < 10
    · simp only [natReprAux, if_pos h, List.mem_singleton] at hc
      exact hc ▸ digitChar10_isDigit n
    · simp only [natReprAux, if_neg h, List.mem_append, List.mem_singleton] at hc
      rcases hc with hc | hc
      · exact ih (n / 10) c hc
      · exact hc ▸ digitChar10_isDigit (n % 10)

theorem mem_natRepr_isDigit (n : Nat) (c : Char) (hc : c ∈ natRepr n) :
    c.isDigit = true :=
  mem_natReprAux_isDigit (n + 1) n c hc

theorem natReprAux_ne_nil : ∀ (fuel n : Nat), fuel ≠ 0 → natReprAux fuel n ≠ [] := by
  intro fuel n hf
  match fuel with
  | f + 1 =>
    by_cases h : n < 10
    · simp [natReprAux, if_pos h]
    · simp [natReprAux, if_neg h]

theorem natRepr_ne_nil (n : Nat) : natRepr n ≠ [] :=
  natReprAux_ne_nil (n + 1) n (by omega)

theorem natReprAux_fuel : ∀ (n fuel : Nat), n < fuel →
    natReprAux fuel n = natRepr n := by
  intro n
  induction n using Nat.strong_induction_on with
  | _ n ih =>
    intro fuel hf
    match fuel with
    | f + 1 =>
      by_cases h : n < 10
      · simp [natReprAux, natRepr, if_pos h]
      · have hd : n / 10 < n := Nat.div_lt_self (by omega) (by omega)
        have h1 : natReprAux f (n / 10) = natRepr (n / 10) :=
          ih (n / 10) hd f (by omega)
        have h2 : natReprAux n (n / 10) = natRepr (n / 10) :=
          ih (n / 10) hd n hd
        show natReprAux (f + 1) n = natReprAux (n + 1) n
        simp only [natReprAux, if_neg h, h1]
        rw [show natReprAux n (n / 10) = natRepr (n / 10) from h2]

theorem natRepr_step (n : Nat) (h : ¬ n < 10) :
    natRepr n = natRepr (n / 10) ++ [digitChar10 (n % 10)] := by
  show natReprAux (n + 1) n = _
  simp only [natReprAux, if_neg h]
  rw [natReprAux_fuel (n / 10) n (Nat.div_lt_self (by omega) (by omega))]

theorem digitsVal_append_one (l : Str) (c : Char) :
    digitsVal (l ++ [c]) = digitsVal l * 10 + (c.toNat - 48) := by
  simp [digitsVal, List.foldl_append]

theorem digitChar10_val (n : Nat) (h : n < 10) :
    (digitChar10 n).toNat - 48 = n := by
  unfold digitChar10
  split_ifs with h0 h1 h2 h3 h4 h5 h6 h7 h8 <;> subst_eqs <;> first
    | decide
    | (have : n = 9 := by omega
       subst this
       decide)

theorem digitsVal_natRepr : ∀ n : Nat, digitsVal (natRepr n) = n := by
  intro n
  induction n using Nat.strong_induction_on with
  | _ n ih =>
    by_cases h : n < 10
    · show digitsVal (natReprAux (n + 1) n) = n
      simp only [natReprAux, if_pos h]
      simpa [digitsVal] using digitChar10_val n h
    · rw [natRepr_step n h, digitsVal_append_one,
        ih (n / 10) (Nat.div_lt_self (by omega) (by omega)),
        digitChar10_val (n % 10) (Nat.mod_lt n (by omega))]
      omega

theorem digitChar10_props (m : Nat) :
    (digitChar10 m).isDigit = true ∧ isSpaceCpp (digitChar10 m) = false ∧
    digitChar10 m ≠ '-' ∧ digitChar10 m ≠ '+' ∧ digitChar10 m ≠ ',' ∧
    digitChar10 m ≠ '|' ∧ digitChar10 m ≠ '\n' := by
  unfold digitChar10
  split_ifs <;> exact ⟨by decide, by decide, by decide, by decide, by decide,
    by decide, by decide⟩

theorem mem_natReprAux_digitChar : ∀ (fuel n : Nat) (c : Char),
    c ∈ natReprAux fuel n → ∃ m, c = digitChar10 m := by
  intro fuel
  induction fuel with
  | zero => intro n c hc; cases hc
  | succ f ih =>
    intro n c hc
    by_cases h : n < 10
    · simp only [natReprAux, if_pos h, List.mem_singleton] at hc
      exact ⟨n, hc⟩
    · simp only [natReprAux, if_neg h, List.mem_append, List.mem_singleton] at hc
      rcases hc with hc | hc
      · exact ih (n / 10) c hc
      · exact ⟨n % 10, hc⟩

theorem mem_natRepr_digitChar (n : Nat) (c : Char) (hc : c ∈ natRepr n) :
    ∃ m, c = digitChar10 m :=
  mem_natReprAux_digitChar (n + 1) n c hc

theorem mem_intRepr_props (i : Int) (c : Char) (hc : c ∈ intRepr i) :
    c ≠ ',' ∧ c ≠ '|' ∧ c ≠ '\n' := by
  unfold intRepr at hc
  split_ifs at hc
  · rcases List.mem_cons.mp hc with rfl | hc'
    · exact ⟨by decide, by decide, by decide⟩
    · obtain ⟨m, rfl⟩ := mem_natRepr_digitChar _ c hc'
      exact ⟨(digitChar10_props m).2.2.2.2.1, (digitChar10_props m).2.2.2.2.2.1,
        (digitChar10_props m).2.2.2.2.2.2⟩
  · obtain ⟨m, rfl⟩ := mem_natRepr_digitChar _ c hc
    exact ⟨(digitChar10_props m).2.2.2.2.1, (digitChar10_props m).2.2.2.2.2.1,
      (digitChar10_props m).2.2.2.2.2.2⟩

theorem mem_toStr_props (a : PhysicalAddress) (c : Char) (hc : c ∈ a.toStr) :
    c ≠ ',' ∧ c ≠ '|' ∧ c ≠ '\n' := by
  unfold PhysicalAddress.toStr at hc
  simp only [List.mem_append, List.mem_cons, List.not_mem_nil, or_false] at hc
  casesm* _ ∨ _
  all_goals
    first
      | exact mem_intRepr_props _ c (by assumption)
      | (subst_vars; decide)

theorem dropWhile_isSpace_digits (l : Str)
    (h : ∀ c ∈ l, isSpaceCpp c = false) : l.dropWhile isSpaceCpp = l := by
  cases l with
  | nil => rfl
  | cons c cs => simp [List.dropWhile_cons, h c (by simp)]

theorem takeWhile_digits (l : Str)
    (h : ∀ c ∈ l, c.isDigit = true) : l.takeWhile Char.isDigit = l := by
  induction l with
  | nil => rfl
  | cons c cs ih =>
    simp only [List.takeWhile_cons, h c (by simp), if_pos]
    rw [ih (fun x hx => h x (List.mem_cons_of_mem c hx))]


theorem stoull_digits (l : Str) (hne : l ≠ [])
    (hd : ∀ c ∈ l, c.isDigit = true ∧ isSpaceCpp c = false ∧ c ≠ '-' ∧ c ≠ '+')
    (hb : digitsVal l < 2 ^ 64) :
    stoullModel l = some (digitsVal l) := by
  obtain ⟨c, cs, rfl⟩ : ∃ c cs, l = c :: cs := by
    cases l with
    | nil => exact absurd rfl hne
    | cons c cs => exact ⟨c, cs, rfl⟩
  have hc0 := hd c (by simp)
  have hdrop : (c :: cs).dropWhile isSpaceCpp = c :: cs :=
    dropWhile_isSpace_digits _ (fun x hx => (hd x hx).2.1)
  have htake : (c :: cs).takeWhile Char.isDigit = c :: cs :=
    takeWhile_digits _ (fun x hx => (hd x hx).1)
  have hm : ((some c == some '-') : Bool) = false := by
    simp [hc0.2.2.1]
  have hp : ((some c == some '+') : Bool) = false := by
    simp [hc0.2.2.2]
  simp only [stoullModel, hdrop, List.head?_cons, hm, hp, Bool.false_eq_true,
    if_false, htake, List.isEmpty_cons, if_neg (Nat.not_le.mpr hb)]

theorem stoullModel_natRepr (n : Nat) (h : n < 2 ^ 64) :
    stoullModel (natRepr n) = some n := by
  have := stoull_digits (natRepr n) (natRepr_ne_nil n)
    (fun c hc => by
      obtain ⟨m, rfl⟩ := mem_natRepr_digitChar n c hc
      exact ⟨(digitChar10_props m).1, (digitChar10_props m).2.1,
        (digitChar10_props m).2.2.1, (digitChar10_props m).2.2.2.1⟩)
    (by rw [digitsVal_natRepr]; exact h)
  rwa [digitsVal_natRepr] at this

theorem stoi_digits (l : Str) (hne : l ≠ [])
    (hd : ∀ c ∈ l, c.isDigit = true ∧ isSpaceCpp c = false ∧ c ≠ '-' ∧ c ≠ '+')
    (hb : digitsVal l < 2 ^ 31) :
    stoiModel l = some (digitsVal l) := by
  obtain ⟨c, cs, rfl⟩ : ∃ c cs, l = c :: cs := by
    cases l with
    | nil => exact absurd rfl hne
    | cons c cs => exact ⟨c, cs, rfl⟩
  have hc0 := hd c (by simp)
  have hdrop : (c :: cs).dropWhile isSpaceCpp = c :: cs :=
    dropWhile_isSpace_digits _ (fun x hx => (hd x hx).2.1)
  have htake : (c :: cs).takeWhile Char.isDigit = c :: cs :=
    takeWhile_digits _ (fun x hx => (hd x hx).1)
  have hm : ((some c == some '-') : Bool) = false := by
    simp [hc0.2.2.1]
  have hp : ((some c == some '+') : Bool) = false := by
    simp [hc0.2.2.2]
  simp only [stoiModel, hdrop, List.head?_cons, hm, hp, Bool.false_eq_true,
    if_false, htake, List.isEmpty_cons, if_neg (Nat.not_le.mpr hb)]
  simp

theorem stoiModel_intRepr (i : Int) (h1 : -(2 ^ 31) ≤ i) (h2 : i ≤ 2 ^ 31 - 1) :
    stoiModel (intRepr i) = some i := by
  have hnatprops : ∀ (n : Nat) (c : Char), c ∈ natRepr n →
      c.isDigit = true ∧ isSpaceCpp c = false ∧ c ≠ '-' ∧ c ≠ '+' := by
    intro n c hc
    obtain ⟨m, rfl⟩ := mem_natRepr_digitChar n c hc
    exact ⟨(digitChar10_props m).1, (digitChar10_props m).2.1,
      (digitChar10_props m).2.2.1, (digitChar10_props m).2.2.2.1⟩
  by_cases hi : i < 0
  · have hrepr : intRepr i = '-' :: natRepr (-i).toNat := by
      simp [intRepr, hi]
    have hdrop : ('-' :: natRepr (-i).toNat).dropWhile isSpaceCpp =
        '-' :: natRepr (-i).toNat := by
      simp [List.dropWhile_cons, isSpaceCpp]
    have htake : (natRepr (-i).toNat).takeWhile Char.isDigit = natRepr (-i).toNat :=
      takeWhile_digits _ (fun x hx => (hnatprops _ x hx).1)
    have hne2 : (natRepr (-i).toNat).isEmpty = false := by
      cases hr : natRepr (-i).toNat with
      | nil => exact absurd hr (natRepr_ne_nil _)
      | cons c cs => rfl
    rw [hrepr]
    simp only [stoiModel, hdrop, List.head?_cons, List.tail_cons,
      show ((some '-' == some '-') : Bool) = true from by decide, if_true,
      htake, hne2, Bool.false_eq_true, if_false, digitsVal_natRepr]
    rw [if_neg (by omega : ¬ 2 ^ 31 < (-i).toNat)]
    exact congrArg some (by omega)
  · have hrepr : intRepr i = natRepr i.toNat := by
      simp [intRepr, hi]
    rw [hrepr, stoi_digits (natRepr i.toNat) (natRepr_ne_nil _)
      (fun c hc => hnatprops _ c hc)
      (by rw [digitsVal_natRepr]; omega), digitsVal_natRepr]
    exact congrArg some (by omega)

/-! Record-level round trip -/

/-- What FixedRecord::deserialize restores on a fresh record: id, deleted flag
and field values — the address, schema and fixed_size stay at their defaults. -/
def stripFixed (fr : FixedRecord) : FixedRecord :=
  { FixedRecord.new with
    record_id := fr.record_id, is_deleted := fr.is_deleted,
    field_values := fr.field_values }

/-- What VariableRecord::deserialize restores on a fresh record: id, deleted
flag, total size, offsets and field values — address and schema stay default. -/
def stripVar (vr : VariableRecord) : VariableRecord :=
  { VariableRecord.new with
    record_id := vr.record_id, is_deleted := vr.is_deleted,
    total_size := vr.total_size, field_offsets := vr.field_offsets,
    field_values := vr.field_values }

/-- Per-variant decode result. -/
def stripRec : Rec → Rec
  | .fixed fr => .fixed (stripFixed fr)
  | .var vr => .var (stripVar vr)

/-- Side conditions under which the comma-joined value list survives the
decode: at least one value, a non-empty last value, and no value containing
the comma or newline delimiters. -/
def valuesOk (vs : List Str) : Prop :=
  vs ≠ [] ∧ vs.getLast? ≠ some [] ∧ ∀ v ∈ vs, ',' ∉ v ∧ '\n' ∉ v

/-- Side conditions for one record to survive the block round trip. -/
def recOk : Rec → Prop
  | .fixed fr => valuesOk fr.field_values ∧
      -(2 ^ 31) ≤ fr.record_id ∧ fr.record_id ≤ 2 ^ 31 - 1
  | .var vr => valuesOk vr.field_values ∧
      -(2 ^ 31) ≤ vr.record_id ∧ vr.record_id ≤ 2 ^ 31 - 1 ∧
      vr.total_size < 2 ^ 64 ∧ ∀ o ∈ vr.field_offsets, o < 2 ^ 64

theorem not_mem_joinComma (vs : List Str) (c : Char) (hc : c ≠ ',')
    (h : ∀ v ∈ vs, c ∉ v) : c ∉ joinComma vs := by
  intro hmem
  rcases mem_joinComma vs c hmem with rfl | ⟨v, hv, hcv⟩
  · exact hc rfl
  · exact h v hv hcv

theorem deleted_token_beq (b : Bool) :
    (((if b then ['1'] else ['0']) : Str) == ['1']) = b := by
  cases b <;> rfl

theorem not_pipe_deleted_token (b : Bool) :
    '|' ∉ ((if b then ['1'] else ['0']) : Str) := by
  cases b <;> decide

theorem fixedRecord_roundtrip (fr : FixedRecord)
    (hv : valuesOk fr.field_values)
    (hid1 : -(2 ^ 31) ≤ fr.record_id) (hid2 : fr.record_id ≤ 2 ^ 31 - 1) :
    FixedRecord.deserialize fr.serialize FixedRecord.new =
      some (true, stripFixed fr) := by
  obtain ⟨hne, hlast, hnc⟩ := hv
  have e1 : fr.serialize = "FIXED".toList ++ '|' ::
      (intRepr fr.record_id ++ '|' ::
        ((if fr.is_deleted then ['1'] else ['0']) ++ '|' ::
          (fr.physical_address.toStr ++ '|' :: joinComma fr.field_values))) := by
    simp only [FixedRecord.serialize, List.append_assoc, List.singleton_append]
    rfl
  have gJ : joinComma fr.field_values ≠ [] := joinComma_ne_nil _ hne hlast
  have g1 : getline '|' ("FIXED".toList ++ '|' ::
      (intRepr fr.record_id ++ '|' ::
        ((if fr.is_deleted then ['1'] else ['0']) ++ '|' ::
          (fr.physical_address.toStr ++ '|' :: joinComma fr.field_values)))) =
      some ("FIXED".toList, intRepr fr.record_id ++ '|' ::
        ((if fr.is_deleted then ['1'] else ['0']) ++ '|' ::
          (fr.physical_address.toStr ++ '|' :: joinComma fr.field_values))) :=
    getline_append '|' _ _ (by decide)
  have g2 : getline '|' (intRepr fr.record_id ++ '|' ::
      ((if fr.is_deleted then ['1'] else ['0']) ++ '|' ::
        (fr.physical_address.toStr ++ '|' :: joinComma fr.field_values))) =
      some (intRepr fr.record_id,
        (if fr.is_deleted then ['1'] else ['0']) ++ '|' ::
          (fr.physical_address.toStr ++ '|' :: joinComma fr.field_values)) :=
    getline_append '|' _ _
      (fun hm => (mem_intRepr_props _ _ hm).2.1 rfl)
  have g3 : getline '|' ((if fr.is_deleted then ['1'] else ['0']) ++ '|' ::
      (fr.physical_address.toStr ++ '|' :: joinComma fr.field_values)) =
      some ((if fr.is_deleted then ['1'] else ['0']),
        fr.physical_address.toStr ++ '|' :: joinComma fr.field_values) :=
    getline_append '|' _ _ (not_pipe_deleted_token fr.is_deleted)
  have g4 : getline '|' (fr.physical_address.toStr ++ '|' ::
      joinComma fr.field_values) =
      some (fr.physical_address.toStr, joinComma fr.field_values) :=
    getline_append '|' _ _ (fun hm => (mem_toStr_props _ _ hm).2.1 rfl)
  have g5 : getline '\n' (joinComma fr.field_values) =
      some (joinComma fr.field_values, []) :=
    getline_no_delim '\n' _ gJ
      (not_mem_joinComma _ _ (by decide) (fun v hv hm => (hnc v hv).2 hm))
  rw [FixedRecord.deserialize, e1]
  simp only [g1, g2, g3, g4, g5, stoiModel_intRepr fr.record_id hid1 hid2,
    getlineLoop_joinComma fr.field_values (fun v hv => (hnc v hv).1) hne hlast,
    deleted_token_beq]
  simp [stripFixed, FixedRecord.new]

theorem mem_natRepr_props (n : Nat) (c : Char) (hc : c ∈ natRepr n) :
    c ≠ ',' ∧ c ≠ '|' ∧ c ≠ '\n' := by
  obtain ⟨m, rfl⟩ := mem_natRepr_digitChar n c hc
  exact ⟨(digitChar10_props m).2.2.2.2.1, (digitChar10_props m).2.2.2.2.2.1,
    (digitChar10_props m).2.2.2.2.2.2⟩

theorem mapM_stoull_natRepr (offs : List Nat) (h : ∀ o ∈ offs, o < 2 ^ 64) :
    (offs.map natRepr).mapM stoullModel = some offs := by
  induction offs with
  | nil => rfl
  | cons o os ih =>
    rw [List.map_cons, List.mapM_cons, stoullModel_natRepr o (h o (by simp)),
      ih (fun x hx => h x (List.mem_cons_of_mem o hx))]
    rfl

theorem offsets_tokens_roundtrip (offs : List Nat) (h : ∀ o ∈ offs, o < 2 ^ 64) :
    (getlineLoop ',' (joinComma (offs.map natRepr))).mapM stoullModel =
      some offs := by
  cases hos : offs with
  | nil => rfl
  | cons o os =>
    rw [← hos]
    have hne : offs ≠ [] := by rw [hos]; simp
    have hlast : (offs.map natRepr).getLast? ≠ some [] := by
      rw [List.getLast?_map]
      intro hc
      rcases Option.map_eq_some'.mp hc with ⟨x, -, hx⟩
      exact natRepr_ne_nil x hx
    rw [getlineLoop_joinComma (offs.map natRepr)
      (fun v hv => by
        obtain ⟨x, -, rfl⟩ := List.mem_map.mp hv
        exact fun hm => (mem_natRepr_props x ',' hm).1 rfl)
      (by simpa using hne) hlast]
    exact mapM_stoull_natRepr offs h

theorem variableRecord_roundtrip (vr : VariableRecord)
    (hv : valuesOk vr.field_values)
    (hid1 : -(2 ^ 31) ≤ vr.record_id) (hid2 : vr.record_id ≤ 2 ^ 31 - 1)
    (hts : vr.total_size < 2 ^ 64) (hoffs : ∀ o ∈ vr.field_offsets, o < 2 ^ 64) :
    VariableRecord.deserialize vr.serialize VariableRecord.new =
      some (true, stripVar vr) := by
  obtain ⟨hne, hlast, hnc⟩ := hv
  have hjo : '|' ∉ joinComma (vr.field_offsets.map natRepr) :=
    not_mem_joinComma _ _ (by decide)
      (fun v hv hm => by
        obtain ⟨x, -, rfl⟩ := List.mem_map.mp hv
        exact (mem_natRepr_props x '|' hm).2.1 rfl)
  have e1 : vr.serialize = "VARIABLE".toList ++ '|' ::
      (intRepr vr.record_id ++ '|' ::
        ((if vr.is_deleted then ['1'] else ['0']) ++ '|' ::
          (vr.physical_address.toStr ++ '|' ::
            (natRepr vr.total_size ++ '|' ::
              (joinComma (vr.field_offsets.map natRepr) ++ '|' ::
                joinComma vr.field_values))))) := by
    simp only [VariableRecord.serialize, List.append_assoc, List.singleton_append]
    rfl
  have gJ : joinComma vr.field_values ≠ [] := joinComma_ne_nil _ hne hlast
  have g1 := getline_append '|' "VARIABLE".toList
      (intRepr vr.record_id ++ '|' ::
        ((if vr.is_deleted then ['1'] else ['0']) ++ '|' ::
          (vr.physical_address.toStr ++ '|' ::
            (natRepr vr.total_size ++ '|' ::
              (joinComma (vr.field_offsets.map natRepr) ++ '|' ::
                joinComma vr.field_values))))) (by decide)
  have g2 := getline_append '|' (intRepr vr.record_id)
      ((if vr.is_deleted then ['1'] else ['0']) ++ '|' ::
        (vr.physical_address.toStr ++ '|' ::
          (natRepr vr.total_size ++ '|' ::
            (joinComma (vr.field_offsets.map natRepr) ++ '|' ::
              joinComma vr.field_values))))
      (fun hm => (mem_intRepr_props _ _ hm).2.1 rfl)
  have g3 := getline_append '|' (if vr.is_deleted then ['1'] else ['0'])
      (vr.physical_address.toStr ++ '|' ::
        (natRepr vr.total_size ++ '|' ::
          (joinComma (vr.field_offsets.map natRepr) ++ '|' ::
            joinComma vr.field_values)))
      (not_pipe_deleted_token vr.is_deleted)
  have g4 := getline_append '|' vr.physical_address.toStr
      (natRepr vr.total_size ++ '|' ::
        (joinComma (vr.field_offsets.map natRepr) ++ '|' ::
          joinComma vr.field_values))
      (fun hm => (mem_toStr_props _ _ hm).2.1 rfl)
  have g5 := getline_append '|' (natRepr vr.total_size)
      (joinComma (vr.field_offsets.map natRepr) ++ '|' :: joinComma vr.field_values)
      (fun hm => (mem_natRepr_props _ _ hm).2.1 rfl)
  have g6 := getline_append '|' (joinComma (vr.field_offsets.map natRepr))
      (joinComma vr.field_values) hjo
  have g7 : getline '\n' (joinComma vr.field_values) =
      some (joinComma vr.field_values, []) :=
    getline_no_delim '\n' _ gJ
      (not_mem_joinComma _ _ (by decide) (fun v hv hm => (hnc v hv).2 hm))
  rw [VariableRecord.deserialize, e1]
  simp only [g1, g2, g3, g4, g5, g6, g7,
    stoiModel_intRepr vr.record_id hid1 hid2,
    stoullModel_natRepr vr.total_size hts,
    offsets_tokens_roundtrip vr.field_offsets hoffs,
    getlineLoop_joinComma vr.field_values (fun v hv => (hnc v hv).1) hne hlast,
    deleted_token_beq]
  simp [stripVar, VariableRecord.new]

/-! Block-level round trip -/

/-- The BLOCK_HEADER line emitted by Block::serialize (without the newline). -/
def headerLine (b : Block) : Str :=
  "BLOCK_HEADER".toList ++ '|' ::
    (b.address.toStr ++ '|' ::
      (natRepr b.block_size ++ '|' ::
        (natRepr b.used_space ++ '|' ::
          (b.relation_name ++ '|' :: natRepr b.records.length))))

/-- The OFFSET_TABLE line emitted by Block::serialize. -/
def offsetsLine (b : Block) : Str :=
  "OFFSET_TABLE".toList ++ '|' :: joinComma (b.offset_table.map natRepr)

/-- A RECORD line emitted by Block::serialize. -/
def recLine (r : Rec) : Str :=
  "RECORD".toList ++ '|' :: r.serialize

theorem serialize_decomp (b : Block) :
    b.serialize = headerLine b ++ '\n' ::
      (offsetsLine b ++ '\n' ::
        List.flatten (b.records.map (fun r => recLine r ++ ['\n']))) := by
  have h1 : ("BLOCK_HEADER|".toList : Str) = "BLOCK_HEADER".toList ++ ['|'] := rfl
  have h2 : ("OFFSET_TABLE|".toList : Str) = "OFFSET_TABLE".toList ++ ['|'] := rfl
  have h3 : ("RECORD|".toList : Str) = "RECORD".toList ++ ['|'] := rfl
  simp only [Block.serialize, headerLine, offsetsLine, recLine, h1, h2, h3,
    List.append_assoc, List.cons_append, List.singleton_append, List.nil_append]

theorem not_newline_serializeRec (r : Rec) (h : recOk r) : '\n' ∉ r.serialize := by
  cases r with
  | fixed fr =>
    obtain ⟨⟨hne, hlast, hnc⟩, -, -⟩ := h
    intro hm
    simp only [Rec.serialize, FixedRecord.serialize, List.append_assoc,
      List.singleton_append, List.mem_append, List.mem_cons,
      List.not_mem_nil, or_false] at hm
    casesm* _ ∨ _
    all_goals first
      | exact absurd (by assumption) (by decide)
      | exact (mem_intRepr_props _ _ (by assumption)).2.2 rfl
      | exact (mem_toStr_props _ _ (by assumption)).2.2 rfl
      | exact not_mem_joinComma _ _ (by decide)
          (fun v hv hmm => (hnc v hv).2 hmm) (by assumption)
      | exact absurd (by assumption)
          (by cases fr.is_deleted <;> decide)
  | var vr =>
    obtain ⟨⟨hne, hlast, hnc⟩, -, -, -, -⟩ := h
    intro hm
    simp only [Rec.serialize, VariableRecord.serialize, List.append_assoc,
      List.singleton_append, List.mem_append, List.mem_cons,
      List.not_mem_nil, or_false] at hm
    casesm* _ ∨ _
    all_goals first
      | exact absurd (by assumption) (by decide)
      | exact (mem_intRepr_props _ _ (by assumption)).2.2 rfl
      | exact (mem_toStr_props _ _ (by assumption)).2.2 rfl
      | exact (mem_natRepr_props _ _ (by assumption)).2.2 rfl
      | exact not_mem_joinComma _ _ (by decide)
          (fun v hv hmm => (hnc v hv).2 hmm) (by assumption)
      | exact not_mem_joinComma (List.map natRepr vr.field_offsets) '\n' (by decide)
          (fun v hv hmm => by
            obtain ⟨x, -, rfl⟩ := List.mem_map.mp hv
            exact (mem_natRepr_props _ _ hmm).2.2 rfl) (by assumption)
      | exact absurd (by assumption)
          (by cases vr.is_deleted <;> decide)

theorem not_newline_headerLine (b : Block) (hrel : '\n' ∉ b.relation_name) :
    '\n' ∉ headerLine b := by
  intro hm
  simp only [headerLine, List.mem_append, List.mem_cons, List.not_mem_nil,
    or_false] at hm
  casesm* _ ∨ _
  all_goals first
    | exact absurd (by assumption) (by decide)
    | exact (mem_toStr_props _ _ (by assumption)).2.2 rfl
    | exact (mem_natRepr_props _ _ (by assumption)).2.2 rfl
    | exact hrel (by assumption)
    | simp_all

theorem not_newline_offsetsLine (b : Block) : '\n' ∉ offsetsLine b := by
  intro hm
  simp only [offsetsLine, List.mem_append, List.mem_cons, List.not_mem_nil,
    or_false] at hm
  casesm* _ ∨ _
  all_goals first
    | exact absurd (by assumption) (by decide)
    | exact not_mem_joinComma (List.map natRepr b.offset_table) '\n' (by decide)
        (fun v hv hmm => by
          obtain ⟨x, -, rfl⟩ := List.mem_map.mp hv
          exact (mem_natRepr_props _ _ hmm).2.2 rfl) (by assumption)
    | simp_all

theorem lines_flatten : ∀ (ls : List Str), (∀ l ∈ ls, '\n' ∉ l) →
    getlineLoop '\n' (List.flatten (ls.map (fun l => l ++ ['\n']))) = ls := by
  intro ls
  induction ls with
  | nil => intro _; rfl
  | cons l rest ih =>
    intro h
    cases rest with
    | nil =>
      simp only [List.map_cons, List.map_nil, List.flatten_cons,
        List.flatten_nil, List.append_nil]
      exact getlineLoop_final_delim '\n' l (h l (by simp))
    | cons l2 rest2 =>
      have hfl : List.flatten (List.map (fun x => x ++ ['\n']) (l2 :: rest2)) ≠ [] := by
        simp only [List.map_cons, List.flatten_cons]
        cases l2 <;> simp
      rw [List.map_cons, List.flatten_cons, List.append_assoc, List.singleton_append,
        getlineLoop_append '\n' l _ (h l (by simp)) hfl,
        ih (fun x hx => h x (List.mem_cons_of_mem l hx))]

theorem not_newline_recLine (r : Rec) (h : recOk r) : '\n' ∉ recLine r := by
  intro hm
  simp only [recLine, List.mem_append, List.mem_cons] at hm
  rcases hm with hm | hm | hm
  · exact absurd hm (by decide)
  · exact absurd hm (by decide)
  · exact not_newline_serializeRec r h hm

theorem tail_lines (b : Block) (recs : List Rec) (hrec : ∀ r ∈ recs, recOk r) :
    getlineLoop '\n' (offsetsLine b ++ '\n' ::
      List.flatten (recs.map (fun r => recLine r ++ ['\n']))) =
      offsetsLine b :: recs.map recLine := by
  cases recs with
  | nil =>
    simpa using getlineLoop_final_delim '\n' (offsetsLine b)
      (not_newline_offsetsLine b)
  | cons r rs =>
    have hfl : List.flatten ((r :: rs).map (fun x => recLine x ++ ['\n'])) ≠ [] := by
      simp only [List.map_cons, List.flatten_cons]
      cases recLine r <;> simp
    rw [getlineLoop_append '\n' (offsetsLine b) _ (not_newline_offsetsLine b) hfl]
    congr 1
    rw [show List.flatten ((r :: rs).map (fun x => recLine x ++ ['\n'])) =
        List.flatten (((r :: rs).map recLine).map (fun l => l ++ ['\n'])) from by
      rw [List.map_map]
      rfl]
    exact lines_flatten _ (fun l hl => by
      obtain ⟨x, hx, rfl⟩ := List.mem_map.mp hl
      exact not_newline_recLine x (hrec x hx))

theorem serialize_lines (b : Block) (hrel : '\n' ∉ b.relation_name)
    (hrec : ∀ r ∈ b.records, recOk r) :
    getlineLoop '\n' b.serialize =
      headerLine b :: offsetsLine b :: b.records.map recLine := by
  rw [serialize_decomp]
  have hrest1 : offsetsLine b ++ '\n' ::
      List.flatten (b.records.map (fun r => recLine r ++ ['\n'])) ≠ [] := by
    cases h : offsetsLine b <;> simp
  rw [getlineLoop_append '\n' (headerLine b) _ (not_newline_headerLine b hrel) hrest1]
  rw [tail_lines b b.records hrec]

theorem processLine_header (b0 b : Block)
    (hrel : '|' ∉ b.relation_name)
    (hbs : b.block_size < 2 ^ 64) (hus : b.used_space < 2 ^ 64) :
    Block.processLine b0 (headerLine b) =
      some { b0 with block_size := b.block_size, used_space := b.used_space,
                     relation_name := b.relation_name } := by
  have hemp : (headerLine b).isEmpty = false := rfl
  have g0 := getlineOr_append '|' "BLOCK_HEADER".toList
    (b.address.toStr ++ '|' ::
      (natRepr b.block_size ++ '|' ::
        (natRepr b.used_space ++ '|' ::
          (b.relation_name ++ '|' :: natRepr b.records.length)))) (by decide)
  have g1 := getlineOr_append '|' b.address.toStr
    (natRepr b.block_size ++ '|' ::
      (natRepr b.used_space ++ '|' ::
        (b.relation_name ++ '|' :: natRepr b.records.length)))
    (fun hm => (mem_toStr_props _ _ hm).2.1 rfl)
  have g2 := getlineOr_append '|' (natRepr b.block_size)
    (natRepr b.used_space ++ '|' ::
      (b.relation_name ++ '|' :: natRepr b.records.length))
    (fun hm => (mem_natRepr_props _ _ hm).2.1 rfl)
  have g3 := getlineOr_append '|' (natRepr b.used_space)
    (b.relation_name ++ '|' :: natRepr b.records.length)
    (fun hm => (mem_natRepr_props _ _ hm).2.1 rfl)
  have g4 := getlineOr_append '|' b.relation_name (natRepr b.records.length)
    (fun hm => hrel hm)
  rw [Block.processLine, hemp]
  show (let tyrest := getlineOr '|' (headerLine b); _) = _
  rw [headerLine]
  simp only [g0, g1, g2, g3, g4, stoullModel_natRepr b.block_size hbs,
    stoullModel_natRepr b.used_space hus, Bool.false_eq_true, if_false, if_true]

theorem processLine_offsets (b0 b : Block)
    (hoffs : ∀ o ∈ b.offset_table, o < 2 ^ 64) :
    Block.processLine b0 (offsetsLine b) =
      some { b0 with offset_table := b0.offset_table ++ b.offset_table } := by
  have hemp : (offsetsLine b).isEmpty = false := rfl
  have g0 := getlineOr_append '|' "OFFSET_TABLE".toList
    (joinComma (b.offset_table.map natRepr)) (by decide)
  have gtok : getlineLoop ','
      ((getlineOr '\n' (joinComma (b.offset_table.map natRepr))).1) =
      getlineLoop ',' (joinComma (b.offset_table.map natRepr)) := by
    cases hj : joinComma (b.offset_table.map natRepr) with
    | nil => rfl
    | cons c cs =>
      rw [← hj, getlineOr_no_delim '\n' _ (by rw [hj]; simp)
        (not_mem_joinComma _ _ (by decide)
          (fun v hv hmm => by
            obtain ⟨x, -, rfl⟩ := List.mem_map.mp hv
            exact (mem_natRepr_props _ _ hmm).2.2 rfl))]
  rw [Block.processLine, hemp]
  show (let tyrest := getlineOr '|' (offsetsLine b); _) = _
  rw [offsetsLine]
  simp only [g0, gtok, offsets_tokens_roundtrip b.offset_table hoffs,
    Bool.false_eq_true, if_false, if_true]
  rw [if_neg (show ¬ ("OFFSET_TABLE".toList = "BLOCK_HEADER".toList) from by decide)]

set_option maxHeartbeats 1000000 in
theorem processLine_record (b0 : Block) (r : Rec) (h : recOk r) :
    Block.processLine b0 (recLine r) =
      some { b0 with records := b0.records ++ [stripRec r] } := by
  have hemp : (recLine r).isEmpty = false := by cases r <;> rfl
  have g0 := getlineOr_append '|' "RECORD".toList r.serialize (by decide)
  have hser : (getlineOr '\n' r.serialize) = (r.serialize, []) := by
    refine getlineOr_no_delim '\n' r.serialize ?_ (not_newline_serializeRec r h)
    cases r with
    | fixed fr => simp [Rec.serialize, FixedRecord.serialize]
    | var vr => simp [Rec.serialize, VariableRecord.serialize]
  rw [Block.processLine, hemp]
  show (let tyrest := getlineOr '|' (recLine r); _) = _
  rw [recLine]
  simp only [g0, hser, Bool.false_eq_true, if_false]
  rw [if_neg (show ¬ ("RECORD".toList = "BLOCK_HEADER".toList) from by decide),
    if_neg (show ¬ ("RECORD".toList = "OFFSET_TABLE".toList) from by decide)]
  rw [if_pos trivial]
  cases r with
  | fixed fr =>
    obtain ⟨hv, hid1, hid2⟩ := h
    have htake : List.take 6 (Rec.serialize (Rec.fixed fr)) = "FIXED|".toList := rfl
    rw [htake, if_pos (rfl : ("FIXED|".toList : Str) = "FIXED|".toList)]
    show (match FixedRecord.deserialize fr.serialize FixedRecord.new with
      | none => none
      | some (true, r) => some { b0 with records := b0.records ++ [Rec.fixed r] }
      | some (false, _) => some b0) = _
    rw [show FixedRecord.deserialize fr.serialize FixedRecord.new =
        some (true, stripFixed fr) from fixedRecord_roundtrip fr hv hid1 hid2]
    rfl
  | var vr =>
    obtain ⟨hv, hid1, hid2, hts, hoffs⟩ := h
    have htake6 : List.take 6 (Rec.serialize (Rec.var vr)) = "VARIAB".toList := rfl
    have htake9 : List.take 9 (Rec.serialize (Rec.var vr)) = "VARIABLE|".toList := rfl
    rw [htake6, if_neg (show ¬ (("VARIAB".toList : Str) = "FIXED|".toList) from by decide),
      htake9, if_pos (rfl : ("VARIABLE|".toList : Str) = "VARIABLE|".toList)]
    show (match VariableRecord.deserialize vr.serialize VariableRecord.new with
      | none => none
      | some (true, r) => some { b0 with records := b0.records ++ [Rec.var r] }
      | some (false, _) => some b0) = _
    rw [show VariableRecord.deserialize vr.serialize VariableRecord.new =
        some (true, stripVar vr) from variableRecord_roundtrip vr hv hid1 hid2 hts hoffs]
    rfl

theorem processLines_records : ∀ (recs : List Rec) (b0 : Block),
    (∀ r ∈ recs, recOk r) →
    (recs.map recLine).foldlM Block.processLine b0 =
      some { b0 with records := b0.records ++ recs.map stripRec } := by
  intro recs
  induction recs with
  | nil =>
    intro b0 _
    simp only [List.map_nil, List.foldlM_nil, List.append_nil]
    rfl
  | cons r rs ih =>
    intro b0 h
    rw [List.map_cons, List.foldlM_cons, processLine_record b0 r (h r (by simp))]
    simp only [Option.bind_eq_bind, Option.some_bind]
    rw [ih _ (fun x hx => h x (List.mem_cons_of_mem r hx))]
    simp [List.append_assoc]

theorem block_roundtrip (b : Block)
    (hrelp : '|' ∉ b.relation_name) (hreln : '\n' ∉ b.relation_name)
    (hbs : b.block_size < 2 ^ 64) (hus : b.used_space < 2 ^ 64)
    (hoff : ∀ o ∈ b.offset_table, o < 2 ^ 64)
    (hrec : ∀ r ∈ b.records, recOk r) :
    Block.deserialize b.serialize b =
      some { b with records := b.records.map stripRec } := by
  rw [Block.deserialize, serialize_lines b hreln hrec, List.foldlM_cons,
    processLine_header _ b hrelp hbs hus]
  simp only [Option.bind_eq_bind, Option.some_bind]
  rw [List.foldlM_cons, processLine_offsets _ b hoff]
  simp only [Option.bind_eq_bind, Option.some_bind]
  rw [processLines_records b.records _ hrec]
  simp

/-! C3 -/

instance decValuesOk (vs : List Str) : Decidable (valuesOk vs) := by
  unfold valuesOk
  infer_instance

instance decRecOk : DecidablePred recOk := fun r => by
  cases r with
  | fixed fr => unfold recOk; infer_instance
  | var vr => unfold recOk; infer_instance

/-- A block holding one fixed record whose field-value list is empty: its
serialized line is `RECORD|FIXED|1|0|P0_S0_T0_SEC0|`, whose final getline
fails, so FixedRecord::deserialize returns false and Block::deserialize drops
the record. -/
def c3cexBlock : Block :=
  { Block.new PhysicalAddress.zero 4096 with
    records := [Rec.fixed { FixedRecord.new with record_id := 1, fixed_size := 8 }],
    offset_table := [64], used_space := 80 }

/-- C3 counterexample: deserializing the serialization of `c3cexBlock` yields
a block with zero records, losing the stored record — the round trip does not
reproduce every record for arbitrary constructed blocks. -/
theorem C3_counterexample :
    (Block.deserialize c3cexBlock.serialize c3cexBlock).map
      (fun x => x.records.length) = some 0 ∧
    c3cexBlock.records.length = 1 := by
  decide

/-- C3 amended: provided the relation name contains no `|` or newline, the
numeric block fields fit in `size_t`, and every record has a non-empty value
list whose last value is non-empty and whose values contain no comma or
newline (ids within `int` range, variable sizes/offsets within `size_t`),
Block::deserialize of Block::serialize run on the same block succeeds and
reproduces the address, relation name, used_space, offset_table, and every
record's id, deleted flag and field values (as string content). -/
theorem C3_roundtrip_amended (b : Block)
    (hrelp : '|' ∉ b.relation_name) (hreln : '\n' ∉ b.relation_name)
    (hbs : b.block_size < 2 ^ 64) (hus : b.used_space < 2 ^ 64)
    (hoff : ∀ o ∈ b.offset_table, o < 2 ^ 64)
    (hrec : ∀ r ∈ b.records, recOk r) :
    (Block.deserialize b.serialize b).map (fun x => x.address) = some b.address ∧
    (Block.deserialize b.serialize b).map (fun x => x.relation_name) =
      some b.relation_name ∧
    (Block.deserialize b.serialize b).map (fun x => x.used_space) =
      some b.used_space ∧
    (Block.deserialize b.serialize b).map (fun x => x.offset_table) =
      some b.offset_table ∧
    (Block.deserialize b.serialize b).map (fun x => x.records.map Rec.getId) =
      some (b.records.map Rec.getId) ∧
    (Block.deserialize b.serialize b).map (fun x => x.records.map Rec.isDeleted) =
      some (b.records.map Rec.isDeleted) ∧
    (Block.deserialize b.serialize b).map
        (fun x => x.records.map Rec.getFieldValues) =
      some (b.records.map Rec.getFieldValues) := by
  rw [block_roundtrip b hrelp hreln hbs hus hoff hrec]
  refine ⟨rfl, rfl, rfl, rfl, ?_, ?_, ?_⟩
  all_goals
    simp only [Option.map_some']
    congr 1
    rw [List.map_map]
    apply List.map_congr_left
    intro r _
    cases r <;> rfl

/-- A mixed block for the C3 witness: one deleted fixed record and one live
variable record. -/
def c3wBlock : Block :=
  { Block.new PhysicalAddress.zero 4096 with
    relation_name := "emp".toList,
    records :=
      [Rec.fixed { record_id := 3, physical_address := PhysicalAddress.zero,
                   is_deleted := true, field_values := ["Ana".toList],
                   schema := [], fixed_size := 20 },
       Rec.var { record_id := 4, physical_address := PhysicalAddress.zero,
                 is_deleted := false,
                 field_values := ["ab".toList, "c".toList], schema := [],
                 field_offsets := [29], total_size := 35 }],
    offset_table := [64, 92], used_space := 144 }

/-- Witness for the amended C3 at the concrete mixed block. -/
theorem C3_witness :
    (Block.deserialize c3wBlock.serialize c3wBlock).map
        (fun x => x.records.map Rec.getId) =
      some (c3wBlock.records.map Rec.getId) ∧
    (Block.deserialize c3wBlock.serialize c3wBlock).map
        (fun x => x.records.map Rec.isDeleted) =
      some (c3wBlock.records.map Rec.isDeleted) ∧
    (Block.deserialize c3wBlock.serialize c3wBlock).map
        (fun x => x.records.map Rec.getFieldValues) =
      some (c3wBlock.records.map Rec.getFieldValues) ∧
    (Block.deserialize c3wBlock.serialize c3wBlock).map (fun x => x.used_space) =
      some c3wBlock.used_space := by
  have h := C3_roundtrip_amended c3wBlock (by decide) (by decide) (by decide)
    (by decide) (by decide) (by decide)
  exact ⟨h.2.2.2.2.1, h.2.2.2.2.2.1, h.2.2.2.2.2.2, h.2.2.1⟩

/-! C9 -/

/-- C9: a FixedRecord default-constructed and then populated by any
FixedRecord::deserialize call that returns (without throwing) keeps
`fixed_size = 0` and an empty schema — deserialize never restores or
recomputes them — so getSize() reports 0. -/
theorem C9_deserialize_keeps_zero_size (data : Str) (res : Bool × FixedRecord)
    (h : FixedRecord.deserialize data FixedRecord.new = some res) :
    res.2.getSize = 0 ∧ res.2.fixed_size = 0 ∧ res.2.schema = [] := by
  unfold FixedRecord.deserialize at h
  repeat' split at h
  all_goals (cases h <;> exact ⟨rfl, rfl, rfl⟩)

/-- The input for the C9 witness: a serialized FixedRecord line. -/
def c9data : Str := "FIXED|7|0|P0_S0_T0_SEC0|Ana".toList

/-- The decoded result for the C9 witness. -/
def c9res : Bool × FixedRecord :=
  (FixedRecord.deserialize c9data FixedRecord.new).getD (false, FixedRecord.new)

/-- Witness for C9: the concrete deserialize succeeds (returns true, restores
id 7 and the value) yet reports size 0. -/
theorem C9_witness :
    c9res.2.getSize = 0 ∧ c9res.2.fixed_size = 0 ∧ c9res.2.schema = [] ∧
    c9res.1 = true ∧ c9res.2.record_id = 7 := by
  have h : FixedRecord.deserialize c9data FixedRecord.new = some c9res := by decide
  have hc := C9_deserialize_keeps_zero_size c9data c9res h
  exact ⟨hc.1, hc.2.1, hc.2.2, by decide, by decide⟩
